import Mathlib

/-! # CruiseControlOperation TTL controller

A shallow embedding of `controllers/cruisecontroloperation_ttl_controller.go`
(the garbage-collection reconciler for finished CruiseControlOperation
resources) together with the properties its specification states about it.

Conventions of the embedding

* A duration is Go's `time.Duration`: a signed nanosecond count stored in an
  int64.  Products of durations wrap modulo `2^64` (`wrapInt64`), and the
  difference of two instants saturates at the int64 bounds, as `Time.Sub` does.
* An instant is counted in nanoseconds from Go's zero `time.Time`
  (so `IsZero` is comparison with `0`).  The instants handled by the
  controller carry no monotonic clock reading (they are decoded from the API
  object), so every comparison is a wall-clock comparison.
* `time.Now()` is not a function of the program state: every place where the
  source reads the clock receives its reading as an explicit argument.
  `Reconcile` reads the clock twice (inside `IsExpired` and inside
  `time.Until`), hence takes two readings.
* `Duration.Seconds` and the `+ 1` of `Reconcile` are float64 operations: a
  float64 is carried by its value counted in units of `2^-1074`, each
  operation rounds its exact result to the nearest float64 (ties to even),
  and `int(...)` is truncation toward zero.
* `ctrl.Result.RequeueAfter` is a `time.Duration`: the helper `requeueAfter`
  turns its whole seconds into one with the int64 product by `time.Second`.
-/

namespace Koperator

/-! ## Time -/

/-! Both `time.Duration` and `time.Time` are carried by `Int`: a duration is
its nanosecond count, an instant the nanoseconds elapsed since the zero time.
The names `Duration.*` and `Time.*` below are the Go methods on them. -/

/-- The smallest `time.Duration`, `-1 << 63`. -/
def minDuration : Int := -9223372036854775808

/-- The largest `time.Duration`, `1<<63 - 1`. -/
def maxDuration : Int := 9223372036854775807

/-- Go `time.Second`, in nanoseconds. -/
def Second : Int := 1000000000

/-- Two's complement wrap-around of an integer to the int64 range. -/
def wrapInt64 (x : Int) : Int := (x + 9223372036854775808) % 18446744073709551616 - 9223372036854775808

/-- Product of two durations, `a * b` on int64 operands. -/
def Duration.mul (a b : Int) : Int := wrapInt64 (a * b)

/-- Go `Time.Add`: the instant `d` after `t`. -/
def Time.Add (t : Int) (d : Int) : Int := t + d

/-- Go `Time.Sub`: the duration `t - u`, saturated to the `Duration` range. -/
def Time.Sub (t u : Int) : Int :=
  if t - u < minDuration then minDuration
  else if maxDuration < t - u then maxDuration
  else t - u

/-- Go `time.Since(t)` with the clock reading `now`: `now.Sub(t)`. -/
def Since (now t : Int) : Int := Time.Sub now t

/-- Go `time.Until(t)` with the clock reading `now`: `t.Sub(now)`. -/
def Until (now t : Int) : Int := Time.Sub t now

/-! ## float64 arithmetic

A finite float64 is an integer multiple of `2^-1074` with at most 53
significant bits; it is carried here by that integer (its value counted in
units of `2^-1074`).  Every operation computes the exact result and rounds it
to the nearest float64, ties to even, as IEEE 754 prescribes.  Overflow to
infinity and NaN are outside the model: the values the controller computes
stay below `2^35`. -/

/-- The float64 `1.0`, in units of `2^-1074`: the number `2^1074`. -/
def float64Unit : Int := 202402253307310618352495346718917307049556649764142118356901358027430339567995346891960383701437124495187077864316811911389808737385793476867013399940738509921517424276566361364466907742093216341239767678472745068562007483424692698618103355649159556340810056512358769552333414615230502532186327508646006263307707741093494784

/-- The distance between neighbouring float64 values around a magnitude of `n`
units: the least power of two that brings `n` below `2^53` (53 significant
bits).  The first argument bounds the number of halvings; 2100 is enough for
every finite float64. -/
def spacing : Nat → Nat → Nat
  | 0, _ => 1
  | fuel + 1, n => if n < 9007199254740992 then 1 else 2 * spacing fuel (n / 2)

/-- The integer nearest to `a / c` for `c > 0`, ties to the even one. -/
def roundHalfEven (a c : Int) : Int :=
  if 2 * (a % c) < c then a / c
  else if c < 2 * (a % c) then a / c + 1
  else if (a / c) % 2 = 0 then a / c
  else a / c + 1

/-- The float64 nearest to the exact quotient `a / b` of two unit counts with
`b > 0`, ties to even. -/
def roundFloat64 (a b : Int) : Int :=
  roundHalfEven a (b * (spacing 2100 (a.natAbs / b.natAbs) : Nat))
    * (spacing 2100 (a.natAbs / b.natAbs) : Nat)

/-- Go conversion `float64(n)` of an integer. -/
def Float64.ofInt (n : Int) : Int := roundFloat64 (n * float64Unit) 1

/-- Go float64 addition `x + y`. -/
def Float64.add (x y : Int) : Int := roundFloat64 (x + y) 1

/-- Go float64 division `x / y` by a non-zero `y` (the controller only divides
by the constant `1e9`). -/
def Float64.div (x y : Int) : Int :=
  if 0 < y then roundFloat64 (x * float64Unit) y else roundFloat64 (-x * float64Unit) (-y)

/-- Go conversion `int(x)` of a float64: the fraction is discarded
(truncation toward zero). -/
def goInt (x : Int) : Int := Int.tdiv x float64Unit

/-- Go `Duration.Seconds`: `float64(sec) + float64(nsec)/1e9` with
`sec := d / Second` and `nsec := d % Second` (truncated division), every
operation in float64. -/
def Duration.Seconds (d : Int) : Int :=
  Float64.add (Float64.ofInt (Int.tdiv d Second))
    (Float64.div (Float64.ofInt (Int.tmod d Second)) (Float64.ofInt 1000000000))
/-- The local `reqSec` of `Reconcile`: `int(remaining.Seconds() + 1)`, the
addition in float64. -/
def reqSec (remaining : Int) : Int :=
  goInt (Float64.add (Duration.Seconds remaining) (Float64.ofInt 1))

/-- Go zero test `Time.IsZero`. -/
def Time.IsZero (t : Int) : Bool := decide (t = 0)

/-- Source `IsExpired(ttl, finishedAt)`: `time.Since(finishedAt) > ttl`,
with `now` the clock reading taken by `time.Since`. -/
def IsExpired (ttl : Int) (finishedAt : Int) (now : Int) : Bool :=
  decide (Since now finishedAt > ttl)

/-! ## API objects, errors and results -/

/-- Go `client.ObjectKey` (`types.NamespacedName`). -/
structure ObjectKey where
  Namespace : String
  Name : String
deriving DecidableEq, Repr

/-- Go `ctrl.Request`: the key of the object to reconcile. -/
structure Request where
  Namespace : String
  Name : String
deriving DecidableEq, Repr

/-- Modelled from the spec: the `CruiseControlOperation` API type (package
`api/v1alpha1`) is declared outside the controller file; the record holds the
fields the spec's data model lists for an OperationRecord: identity,
`ttlSecondsAfterFinished`, `currentTaskFinishedAt`, the derived `finished`
flag and the deletion marker. -/
structure CruiseControlOperation where
  Namespace : String
  Name : String
  ttlSecondsAfterFinished : Option Int
  currentTaskFinished : Option Int
  finished : Bool
  deletionTimestamp : Option Int
deriving DecidableEq, Repr

/-- Modelled from the spec: accessor of the optional TTL (`nil` when absent). -/
def CruiseControlOperation.GetTTLSecondsAfterFinished (o : CruiseControlOperation) : Option Int :=
  o.ttlSecondsAfterFinished

/-- Modelled from the spec: accessor of the optional completion timestamp
(`nil` when the task has not finished). -/
def CruiseControlOperation.CurrentTaskFinished (o : CruiseControlOperation) : Option Int :=
  o.currentTaskFinished

/-- Modelled from the spec: the derived `finished` flag. -/
def CruiseControlOperation.IsFinished (o : CruiseControlOperation) : Bool :=
  o.finished

/-- Go `metav1.ObjectMeta.GetDeletionTimestamp`: the optional deletion marker. -/
def CruiseControlOperation.GetDeletionTimestamp (o : CruiseControlOperation) : Option Int :=
  o.deletionTimestamp

/-- Go `(*metav1.Time).IsZero`: a nil pointer is zero, otherwise the wrapped
instant decides. -/
def metav1IsZero : Option Int → Bool
  | none => true
  | some t => Time.IsZero t

/-- The key under which an object is stored. -/
def CruiseControlOperation.key (o : CruiseControlOperation) : ObjectKey :=
  ⟨o.Namespace, o.Name⟩

/-- Errors a store call can report: the two categories of the ResourceStore
interface, each with its message. -/
inductive APIError where
  | NotFound (msg : String)
  | StoreError (msg : String)
deriving DecidableEq, Repr

/-- Go `apierrors.IsNotFound`. -/
def IsNotFound : APIError → Bool
  | APIError.NotFound _ => true
  | APIError.StoreError _ => false

/-- Go `err.Error()`: the message of the error. -/
def APIError.Error : APIError → String
  | APIError.NotFound msg => msg
  | APIError.StoreError msg => msg

/-- Go `ctrl.Result` (`reconcile.Result`).  `RequeueAfter` is a
`time.Duration`, an int64 nanosecond count carried by `Int`; the controller
only stores `0` or an int64 product (`Duration.mul`) in it. -/
structure Result where
  Requeue : Bool
  RequeueAfter : Int
deriving DecidableEq, Repr

/-- The zero value `reconcile.Result{}`. -/
def Result.empty : Result := ⟨false, 0⟩

/-- What a reconcile hands back to the scheduler: `(ctrl.Result, error)`. -/
abbrev Outcome := Result × Option APIError

/-- The outcome the spec calls `Done`: empty result, nil error. -/
def Done : Outcome := (Result.empty, none)

/-- Modelled from the spec: helper `reconciled()`, defined in another file of
the package; it builds the `Done` outcome. -/
def reconciled : Outcome := (Result.empty, none)

/-- Modelled from the spec: helper `requeueAfter(sec)`, defined in another
file of the package; it builds `RequeueAfter(duration)` for a delay of `sec`
whole seconds, without error.  The duration is a `time.Duration`, the int64
product `time.Duration(sec) * time.Second`. -/
def requeueAfter (sec : Int) : Outcome := (⟨false, Duration.mul sec Second⟩, none)

/-- Modelled from the spec: helper `requeueWithError(log, msg, err)`, defined
in another file of the package; it logs `msg` and builds `Failed(err)`: empty
result, the error passed through. -/
def requeueWithError (_msg : String) (err : APIError) : Outcome := (Result.empty, some err)

/-! ## The store client -/

/-- A call issued to the store. -/
inductive Call where
  | get (key : ObjectKey)
  | delete (obj : CruiseControlOperation)
deriving DecidableEq, Repr

/-- The objects handed to the delete calls of a call log, in order. -/
def deleteCalls : List Call → List CruiseControlOperation
  | [] => []
  | Call.get _ :: cs => deleteCalls cs
  | Call.delete o :: cs => o :: deleteCalls cs

/-- The reconciler: the embedded `client.Client`, reduced to the two calls
the controller issues, over a store state `σ`.  `Get` only reads; `Delete`
reports an optional error and the store it leaves behind. -/
structure CruiseControlOperationTTLReconciler (σ : Type) where
  Get : σ → ObjectKey → Except APIError CruiseControlOperation
  Delete : σ → CruiseControlOperation → Option APIError × σ

/-- The world a reconcile runs in: the store and the log of calls made to it. -/
structure Env (σ : Type) where
  store : σ
  calls : List Call

/-- Call `r.Get(ctx, key, obj)`, logged. -/
def CruiseControlOperationTTLReconciler.callGet {σ : Type} (r : CruiseControlOperationTTLReconciler σ)
    (key : ObjectKey) (e : Env σ) : Except APIError CruiseControlOperation × Env σ :=
  (r.Get e.store key, { store := e.store, calls := e.calls ++ [Call.get key] })

/-- Call `r.Delete(ctx, obj)`, logged. -/
def CruiseControlOperationTTLReconciler.callDelete {σ : Type} (r : CruiseControlOperationTTLReconciler σ)
    (obj : CruiseControlOperation) (e : Env σ) : Option APIError × Env σ :=
  ((r.Delete e.store obj).1, { store := (r.Delete e.store obj).2, calls := e.calls ++ [Call.delete obj] })

/-! ## The controller -/

/-- Source `(r *CruiseControlOperationTTLReconciler) delete`. -/
def CruiseControlOperationTTLReconciler.delete {σ : Type} (r : CruiseControlOperationTTLReconciler σ)
    (ccOperation : CruiseControlOperation) (e : Env σ) : Outcome × Env σ :=
  match r.callDelete ccOperation e with
  | (some err, e1) =>
    if !IsNotFound err then
      (requeueWithError "error is occurred when deleting finished CruiseControlOperation " err, e1)
    else ((Result.empty, none), e1)
  | (none, e1) => ((Result.empty, none), e1)

/-- Source `(r *CruiseControlOperationTTLReconciler) Reconcile`.  `now₁` is the
clock reading of `time.Since` inside `IsExpired`, `now₂` the later reading of
`time.Until`. -/
def CruiseControlOperationTTLReconciler.Reconcile {σ : Type} (r : CruiseControlOperationTTLReconciler σ)
    (req : Request) (now₁ now₂ : Int) (e : Env σ) : Outcome × Env σ :=
  match r.callGet ⟨req.Namespace, req.Name⟩ e with
  | (Except.error err, e1) =>
    if IsNotFound err then (reconciled, e1)
    else (requeueWithError err.Error err, e1)
  | (Except.ok ccOperation, e1) =>
    match ccOperation.GetTTLSecondsAfterFinished, ccOperation.CurrentTaskFinished with
    | some ttlSeconds, some finishedAt =>
      if IsExpired (Duration.mul ttlSeconds Second) finishedAt now₁ then
        r.delete ccOperation e1
      else
        (requeueAfter (reqSec
          (Until now₂ (Time.Add finishedAt (Duration.mul ttlSeconds Second)))), e1)
    | _, _ => (reconciled, e1)

/-- The value of `time.Until(cleanupTime)` in `Reconcile` at the clock reading
`now`, with `operationTTL = ttlSeconds * time.Second` and
`cleanupTime = finishedAt.Add(operationTTL)`. -/
def remaining (ttlSeconds finishedAt now : Int) : Int :=
  Until now (Time.Add finishedAt (Duration.mul ttlSeconds Second))

/-- Successive reconciles of one key: each runs on the world the previous one
left, with its own two clock readings; the outcomes are collected in order. -/
def CruiseControlOperationTTLReconciler.reconcileMany {σ : Type}
    (r : CruiseControlOperationTTLReconciler σ) (req : Request) :
    List (Int × Int) → Env σ → List Outcome × Env σ
  | [], e => ([], e)
  | (now₁, now₂) :: clocks, e =>
    ((r.Reconcile req now₁ now₂ e).1 :: (reconcileMany r req clocks (r.Reconcile req now₁ now₂ e).2).1,
      (reconcileMany r req clocks (r.Reconcile req now₁ now₂ e).2).2)

/-- Go `event.CreateEvent`. -/
structure CreateEvent where
  Object : CruiseControlOperation

/-- Go `event.UpdateEvent`. -/
structure UpdateEvent where
  ObjectOld : CruiseControlOperation
  ObjectNew : CruiseControlOperation

/-- Go `event.DeleteEvent`. -/
structure DeleteEvent where
  Object : CruiseControlOperation
  DeleteStateUnknown : Bool

/-- Go `predicate.Funcs`, the three callbacks the controller sets. -/
structure Funcs where
  CreateFunc : CreateEvent → Bool
  UpdateFunc : UpdateEvent → Bool
  DeleteFunc : DeleteEvent → Bool

/-- Source `cruiseControlOperationTTLPredicate`, the event filter built in
`SetupCruiseControlOperationTTLWithManager`. -/
def cruiseControlOperationTTLPredicate : Funcs where
  CreateFunc := fun e =>
    if e.Object.IsFinished && e.Object.GetTTLSecondsAfterFinished != none
        && metav1IsZero e.Object.GetDeletionTimestamp then true
    else false
  UpdateFunc := fun e =>
    if e.ObjectNew.IsFinished && e.ObjectNew.GetTTLSecondsAfterFinished != none
        && metav1IsZero e.ObjectNew.GetDeletionTimestamp then true
    else false
  DeleteFunc := fun _ => false

/-! ## An in-memory store -/

/-- Modelled from the spec: the ResourceStore is an external collaborator; this
is the in-memory fake of its interface, a list of records addressed by
namespace and name. -/
abbrev MemStore := List CruiseControlOperation

/-- Modelled from the spec: `get(namespace, name)` of the in-memory store. -/
def MemStore.get (s : MemStore) (key : ObjectKey) : Except APIError CruiseControlOperation :=
  match s.find? (fun o => decide (o.key = key)) with
  | some o => Except.ok o
  | none => Except.error (APIError.NotFound "not found")

/-- Modelled from the spec: `delete(namespace, name)` of the in-memory store. -/
def MemStore.delete (s : MemStore) (obj : CruiseControlOperation) : Option APIError × MemStore :=
  if s.any (fun o => decide (o.key = obj.key)) then
    (none, s.filter (fun o => !decide (o.key = obj.key)))
  else (some (APIError.NotFound "not found"), s)

/-- The reconciler over the in-memory store. -/
def memReconciler : CruiseControlOperationTTLReconciler MemStore := ⟨MemStore.get, MemStore.delete⟩

/-- The reconciler over the in-memory store with injected faults: a `get` or
`delete` fault, when set, is what the call reports, and the store is left as
it is. -/
def faultyReconciler (getFault deleteFault : Option APIError) : CruiseControlOperationTTLReconciler MemStore where
  Get := fun s key =>
    match getFault with
    | some err => Except.error err
    | none => MemStore.get s key
  Delete := fun s obj =>
    match deleteFault with
    | some err => (some err, s)
    | none => MemStore.delete s obj

/-- A sample record named `op` with the given TTL and completion time. -/
def sampleOp (ttl : Option Int) (finishedAt : Option Int) : CruiseControlOperation :=
  ⟨"kafka", "op", ttl, finishedAt, true, none⟩

/-- The request for the sample record. -/
def sampleReq : Request := ⟨"kafka", "op"⟩

set_option maxRecDepth 100000
/-! ## Rounding to float64 -/

theorem float64Unit_eq : float64Unit = 2 ^ 1074 := by
  unfold float64Unit
  norm_num

theorem spacing_pos (fuel n : Nat) : 0 < spacing fuel n := by
  induction fuel generalizing n with
  | zero => simp [spacing]
  | succ k ih =>
    unfold spacing
    split
    · exact Nat.one_pos
    · exact Nat.mul_pos (by norm_num) (ih _)

theorem spacing_dvd (fuel n K : Nat) (h : n < 2 ^ (53 + K)) : spacing fuel n ∣ 2 ^ K := by
  induction fuel generalizing n K with
  | zero => simp [spacing]
  | succ k ih =>
    unfold spacing
    split
    · exact one_dvd _
    · rename_i hn
      cases K with
      | zero => exact absurd (by simpa using h) hn
      | succ K =>
        have h2 : n / 2 < 2 ^ (53 + K) := by
          rw [Nat.div_lt_iff_lt_mul (by norm_num)]
          calc n < 2 ^ (53 + (K + 1)) := h
            _ = 2 ^ (53 + K) * 2 := by rw [← Nat.add_assoc, pow_succ]
        rw [pow_succ, Nat.mul_comm]
        exact Nat.mul_dvd_mul_right (ih _ _ h2) 2

theorem roundHalfEven_le (a c w : Int) (hc : 0 < c) (h : a ≤ w * c) : roundHalfEven a c ≤ w := by
  have hdm := Int.ediv_add_emod a c
  have hr0 := Int.emod_nonneg a hc.ne'
  have hq : a / c ≤ w := by
    by_contra hcon
    have : w + 1 ≤ a / c := by omega
    have := mul_le_mul_of_nonneg_left this hc.le
    nlinarith
  have hq1 : 0 < a % c → a / c + 1 ≤ w := by
    intro hr
    by_contra hcon
    have : w ≤ a / c := by omega
    have := mul_le_mul_of_nonneg_left this hc.le
    nlinarith
  unfold roundHalfEven
  split_ifs
  · exact hq
  · exact hq1 (by omega)
  · exact hq
  · exact hq1 (by omega)

theorem le_roundHalfEven (a c v : Int) (hc : 0 < c) (h : v * c ≤ a) : v ≤ roundHalfEven a c := by
  have hdm := Int.ediv_add_emod a c
  have hr1 := Int.emod_lt_of_pos a hc
  have hq : v ≤ a / c := by
    by_contra hcon
    have : a / c + 1 ≤ v := by omega
    have := mul_le_mul_of_nonneg_left this hc.le
    nlinarith
  unfold roundHalfEven
  split_ifs <;> omega

theorem roundFloat64_le (a b w : Int) (K : Nat) (ha : 0 ≤ a) (hb : 0 < b)
    (hlt : a < 2 ^ (53 + K) * b) (hw : (2 : Int) ^ K ∣ w) (h : a ≤ w * b) :
    roundFloat64 a b ≤ w := by
  lift a to ℕ using ha
  lift b to ℕ using hb.le
  have hb' : 0 < b := by exact_mod_cast hb
  have hn : a / b < 2 ^ (53 + K) := by
    rw [Nat.div_lt_iff_lt_mul hb']
    exact_mod_cast hlt
  unfold roundFloat64
  simp only [Int.natAbs_ofNat]
  have hg := spacing_dvd 2100 (a / b) K hn
  have hgpos := spacing_pos 2100 (a / b)
  generalize spacing 2100 (a / b) = g at hg hgpos
  have hgw : (g : Int) ∣ w := by
    have : (g : Int) ∣ (2 : Int) ^ K := by exact_mod_cast (Int.natCast_dvd_natCast.mpr hg)
    exact this.trans hw
  obtain ⟨w', rfl⟩ := hgw
  have hgi : (0 : Int) < g := by exact_mod_cast hgpos
  have := roundHalfEven_le (a : Int) ((b : Int) * g) w' (mul_pos hb hgi) (by nlinarith)
  nlinarith

theorem le_roundFloat64 (a b v : Int) (K : Nat) (ha : 0 ≤ a) (hb : 0 < b)
    (hlt : a < 2 ^ (53 + K) * b) (hv : (2 : Int) ^ K ∣ v) (h : v * b ≤ a) :
    v ≤ roundFloat64 a b := by
  lift a to ℕ using ha
  lift b to ℕ using hb.le
  have hb' : 0 < b := by exact_mod_cast hb
  have hn : a / b < 2 ^ (53 + K) := by
    rw [Nat.div_lt_iff_lt_mul hb']
    exact_mod_cast hlt
  unfold roundFloat64
  simp only [Int.natAbs_ofNat]
  have hg := spacing_dvd 2100 (a / b) K hn
  have hgpos := spacing_pos 2100 (a / b)
  generalize spacing 2100 (a / b) = g at hg hgpos
  have hgv : (g : Int) ∣ v := by
    have : (g : Int) ∣ (2 : Int) ^ K := by exact_mod_cast (Int.natCast_dvd_natCast.mpr hg)
    exact this.trans hv
  obtain ⟨v', rfl⟩ := hgv
  have hgi : (0 : Int) < g := by exact_mod_cast hgpos
  have := le_roundHalfEven (a : Int) ((b : Int) * g) v' (mul_pos hb hgi) (by nlinarith)
  nlinarith

theorem float64Unit_pos : 0 < float64Unit := by
  rw [float64Unit_eq]
  positivity

theorem pow_mul_float64Unit (m : Nat) : (2 : Int) ^ (53 + (m + 1021)) = 2 ^ m * float64Unit := by
  have h : 53 + (m + 1021) = m + 1074 := by omega
  rw [float64Unit_eq, ← pow_add, h]

theorem pow_dvd_float64Unit (K : Nat) (hK : K ≤ 1074) : (2 : Int) ^ K ∣ float64Unit := by
  rw [float64Unit_eq]
  exact pow_dvd_pow 2 hK

theorem Float64_ofInt_eq (n : Int) (h0 : 0 ≤ n) (h1 : n < 2 ^ 53) :
    Float64.ofInt n = n * float64Unit := by
  have hU := float64Unit_pos
  have hlt : n * float64Unit < 2 ^ (53 + (53 + 1021)) * 1 := by
    rw [pow_mul_float64Unit, mul_one]
    exact mul_lt_mul_of_pos_right h1 hU
  have hd : (2 : Int) ^ (53 + 1021) ∣ n * float64Unit :=
    Dvd.dvd.mul_left (pow_dvd_float64Unit _ (by norm_num)) n
  unfold Float64.ofInt
  apply le_antisymm
  · exact roundFloat64_le _ 1 _ (53 + 1021) (mul_nonneg h0 hU.le) one_pos hlt hd (by rw [mul_one])
  · exact le_roundFloat64 _ 1 _ (53 + 1021) (mul_nonneg h0 hU.le) one_pos hlt hd (by rw [mul_one])

theorem Float64_pipeline (sec nsec wf : Int) (m : Nat) (hm : m ≤ 53)
    (hs0 : 0 ≤ sec) (hn0 : 0 ≤ nsec) (hn1 : nsec < 1000000000)
    (hw0 : 0 ≤ wf) (hw1 : wf ≤ float64Unit) (hwd : (2 : Int) ^ (m + 1021) ∣ wf)
    (hwf : nsec * float64Unit ≤ wf * 1000000000)
    (hsm : (sec + 1) * float64Unit + wf < 2 ^ m * float64Unit) :
    (sec + 1) * float64Unit
      ≤ Float64.add (Float64.add (Float64.ofInt sec)
          (Float64.div (Float64.ofInt nsec) (Float64.ofInt 1000000000))) (Float64.ofInt 1) ∧
    Float64.add (Float64.add (Float64.ofInt sec)
          (Float64.div (Float64.ofInt nsec) (Float64.ofInt 1000000000))) (Float64.ofInt 1)
      ≤ (sec + 1) * float64Unit + wf := by
  have hU := float64Unit_pos
  have h2m : (2 : Int) ^ m ≤ 2 ^ 53 := pow_le_pow_right₀ (by norm_num) hm
  have hsec : sec < 2 ^ 53 := by
    have : (sec + 1) * float64Unit < 2 ^ m * float64Unit := by linarith
    have := lt_of_mul_lt_mul_right this hU.le
    linarith
  have hdU : (2 : Int) ^ (m + 1021) ∣ float64Unit := pow_dvd_float64Unit _ (by omega)
  rw [Float64_ofInt_eq sec hs0 hsec, Float64_ofInt_eq nsec hn0 (by linarith [show (1000000000 : Int) < 2 ^ 53 by norm_num]),
    Float64_ofInt_eq 1000000000 (by norm_num) (by norm_num), Float64_ofInt_eq 1 (by norm_num) (by norm_num)]
  -- the quotient nsec / 1e9
  have hE9 : (0 : Int) < 1000000000 * float64Unit := mul_pos (by norm_num) hU
  have hfa : 0 ≤ nsec * float64Unit * float64Unit := mul_nonneg (mul_nonneg hn0 hU.le) hU.le
  have hflt : nsec * float64Unit * float64Unit
      < 2 ^ (53 + (0 + 1021)) * (1000000000 * float64Unit) := by
    rw [pow_mul_float64Unit]
    have : nsec * float64Unit < 1000000000 * float64Unit := mul_lt_mul_of_pos_right hn1 hU
    nlinarith
  have hf0 : 0 ≤ Float64.div (nsec * float64Unit) (1000000000 * float64Unit) := by
    unfold Float64.div
    rw [if_pos hE9]
    exact le_roundFloat64 _ _ 0 (0 + 1021) hfa hE9 hflt (dvd_zero _) (by simpa using hfa)
  have hf1 : Float64.div (nsec * float64Unit) (1000000000 * float64Unit) ≤ wf := by
    unfold Float64.div
    rw [if_pos hE9]
    refine roundFloat64_le _ _ wf (0 + 1021) hfa hE9 hflt ?_ ?_
    · exact (pow_dvd_pow 2 (by omega)).trans hwd
    · nlinarith
  generalize Float64.div (nsec * float64Unit) (1000000000 * float64Unit) = f at hf0 hf1
  -- the sum sec + f
  have hta : 0 ≤ sec * float64Unit + f := add_nonneg (mul_nonneg hs0 hU.le) hf0
  have htlt : sec * float64Unit + f < 2 ^ (53 + (m + 1021)) * 1 := by
    rw [pow_mul_float64Unit, mul_one]
    nlinarith
  have ht0 : sec * float64Unit ≤ Float64.add (sec * float64Unit) f := by
    unfold Float64.add
    exact le_roundFloat64 _ 1 _ (m + 1021) hta one_pos htlt (Dvd.dvd.mul_left hdU sec) (by linarith)
  have ht1 : Float64.add (sec * float64Unit) f ≤ sec * float64Unit + wf := by
    unfold Float64.add
    exact roundFloat64_le _ 1 _ (m + 1021) hta one_pos htlt
      (dvd_add (Dvd.dvd.mul_left hdU sec) hwd) (by linarith)
  generalize Float64.add (sec * float64Unit) f = t at ht0 ht1
  -- the sum t + 1
  have hua : 0 ≤ t + 1 * float64Unit := by nlinarith
  have hult : t + 1 * float64Unit < 2 ^ (53 + (m + 1021)) * 1 := by
    rw [pow_mul_float64Unit, mul_one]
    nlinarith
  constructor
  · unfold Float64.add
    exact le_roundFloat64 _ 1 _ (m + 1021) hua one_pos hult (Dvd.dvd.mul_left hdU _) (by linarith)
  · unfold Float64.add
    exact roundFloat64_le _ 1 _ (m + 1021) hua one_pos hult
      (dvd_add (Dvd.dvd.mul_left hdU _) hwd) (by linarith)

theorem reqSec_bounds (d : Int) (h0 : 0 ≤ d) (h1 : d ≤ 9223372036854775807) :
    d / 1000000000 + 1 ≤ reqSec d ∧ reqSec d ≤ d / 1000000000 + 2 := by
  have hU := float64Unit_pos
  have htd : Int.tdiv d Second = d / 1000000000 := by
    unfold Second; exact Int.tdiv_eq_ediv h0 (by norm_num)
  have htm : Int.tmod d Second = d % 1000000000 := by
    unfold Second; exact Int.tmod_eq_emod h0 (by norm_num)
  have hp := Float64_pipeline (d / 1000000000) (d % 1000000000) float64Unit 34 (by norm_num)
    (by omega) (by omega) (by omega) hU.le le_rfl (pow_dvd_float64Unit _ (by norm_num))
    (by nlinarith [show d % 1000000000 ≤ 1000000000 by omega])
    (by
      have : d / 1000000000 + 1 + 1 < 2 ^ 34 := by norm_num; omega
      nlinarith)
  unfold reqSec Duration.Seconds goInt
  rw [htd, htm]
  generalize Float64.add (Float64.add (Float64.ofInt (d / 1000000000))
    (Float64.div (Float64.ofInt (d % 1000000000)) (Float64.ofInt 1000000000))) (Float64.ofInt 1)
    = u at hp
  have hu0 : 0 ≤ u :=
    le_trans (mul_nonneg (by omega : (0 : Int) ≤ d / 1000000000 + 1) hU.le) hp.1
  rw [Int.tdiv_eq_ediv hu0 hU.le]
  constructor
  · exact (Int.le_ediv_iff_mul_le hU).mpr hp.1
  · have : u / float64Unit < d / 1000000000 + 2 + 1 := by
      rw [Int.ediv_lt_iff_lt_mul hU]
      nlinarith [hp.2]
    omega

theorem reqSec_exact (d : Int) (h0 : 0 ≤ d) (h1 : d < 8388607 * 1000000000) :
    reqSec d = d / 1000000000 + 1 := by
  have hU := float64Unit_pos
  have htd : Int.tdiv d Second = d / 1000000000 := by
    unfold Second; exact Int.tdiv_eq_ediv h0 (by norm_num)
  have htm : Int.tmod d Second = d % 1000000000 := by
    unfold Second; exact Int.tmod_eq_emod h0 (by norm_num)
  have hP : float64Unit = 1073741824 * 2 ^ 1044 := by
    rw [float64Unit_eq]; norm_num
  have hPpos : (0 : Int) < 2 ^ 1044 := by positivity
  have hp := Float64_pipeline (d / 1000000000) (d % 1000000000) (float64Unit - 2 ^ 1044) 23
    (by norm_num) (by omega) (by omega) (by omega)
    (by rw [hP]; nlinarith) (by linarith)
    (by rw [hP]; exact ⟨1073741823, by ring⟩)
    (by
      rw [hP]
      have : d % 1000000000 * 1073741824 ≤ 1073741823 * 1000000000 := by omega
      nlinarith)
    (by
      have : d / 1000000000 + 1 + 1 ≤ 2 ^ 23 := by norm_num; omega
      nlinarith)
  unfold reqSec Duration.Seconds goInt
  rw [htd, htm]
  generalize Float64.add (Float64.add (Float64.ofInt (d / 1000000000))
    (Float64.div (Float64.ofInt (d % 1000000000)) (Float64.ofInt 1000000000))) (Float64.ofInt 1)
    = u at hp
  have hu0 : 0 ≤ u :=
    le_trans (mul_nonneg (by omega : (0 : Int) ≤ d / 1000000000 + 1) hU.le) hp.1
  rw [Int.tdiv_eq_ediv hu0 hU.le]
  have hlo : d / 1000000000 + 1 ≤ u / float64Unit := (Int.le_ediv_iff_mul_le hU).mpr hp.1
  have hhi : u / float64Unit < d / 1000000000 + 2 := by
    rw [Int.ediv_lt_iff_lt_mul hU]
    nlinarith [hp.2]
  omega


/-! ## Monotonicity of the rounding -/

theorem spacing_dvd_of_le (fuel n n' : Nat) (h : n ≤ n') : spacing fuel n ∣ spacing fuel n' := by
  induction fuel generalizing n n' with
  | zero => simp [spacing]
  | succ k ih =>
    unfold spacing
    by_cases hn : n < 9007199254740992
    · rw [if_pos hn]
      exact one_dvd _
    · rw [if_neg hn, if_neg (by omega)]
      exact Nat.mul_dvd_mul_left 2 (ih _ _ (Nat.div_le_div_right h))

theorem spacing_eq_pow (fuel n : Nat) : ∃ k, spacing fuel n = 2 ^ k := by
  induction fuel generalizing n with
  | zero => exact ⟨0, rfl⟩
  | succ j ih =>
    unfold spacing
    split
    · exact ⟨0, rfl⟩
    · obtain ⟨k, hk⟩ := ih (n / 2)
      exact ⟨k + 1, by rw [hk, pow_succ, Nat.mul_comm]⟩

theorem spacing_lower (fuel n : Nat) :
    spacing fuel n = 1 ∨ 4503599627370496 * spacing fuel n ≤ n := by
  induction fuel generalizing n with
  | zero => exact Or.inl rfl
  | succ j ih =>
    unfold spacing
    split
    · exact Or.inl rfl
    · right
      rcases ih (n / 2) with h | h
      · rw [h]; omega
      · omega

theorem spacing_upper (fuel n : Nat) (h : n < 2 ^ (53 + fuel)) :
    n < 9007199254740992 * spacing fuel n := by
  induction fuel generalizing n with
  | zero =>
    have : n < 9007199254740992 := by simpa using h
    simp [spacing]; omega
  | succ j ih =>
    unfold spacing
    split
    · omega
    · have h2 : n / 2 < 2 ^ (53 + j) := by
        rw [Nat.div_lt_iff_lt_mul (by norm_num)]
        calc n < 2 ^ (53 + (j + 1)) := h
          _ = 2 ^ (53 + j) * 2 := by rw [← Nat.add_assoc, pow_succ]
      have := ih _ h2
      omega

theorem roundHalfEven_mono (a a' c : Int) (hc : 0 < c) (h : a ≤ a') :
    roundHalfEven a c ≤ roundHalfEven a' c := by
  have hdm := Int.ediv_add_emod a c
  have hdm' := Int.ediv_add_emod a' c
  have hr0 := Int.emod_nonneg a hc.ne'
  have hr1 := Int.emod_lt_of_pos a hc
  have hr0' := Int.emod_nonneg a' hc.ne'
  have hr1' := Int.emod_lt_of_pos a' hc
  have hq : a / c ≤ a' / c := Int.ediv_le_ediv hc h
  rcases hq.lt_or_eq with hlt | heq
  · have h1 : roundHalfEven a c ≤ a / c + 1 := by
      unfold roundHalfEven; split_ifs <;> omega
    have h2 : a' / c ≤ roundHalfEven a' c := by
      unfold roundHalfEven; split_ifs <;> omega
    omega
  · have hr : a % c ≤ a' % c := by
      rw [← heq] at hdm'
      linarith
    unfold roundHalfEven
    rw [← heq]
    split_ifs <;> omega

set_option exponentiation.threshold 4096 in
theorem roundFloat64_mono (a a' b : Int) (ha : 0 ≤ a) (h : a ≤ a') (hb : 0 < b)
    (hlt : a < 2 ^ 2153 * b) : roundFloat64 a b ≤ roundFloat64 a' b := by
  have ha' : 0 ≤ a' := le_trans ha h
  lift a to ℕ using ha
  lift a' to ℕ using ha'
  lift b to ℕ using hb.le
  have hb' : 0 < b := by exact_mod_cast hb
  have haa : a ≤ a' := by exact_mod_cast h
  have hn : a / b < 2 ^ (53 + 2100) := by
    rw [Nat.div_lt_iff_lt_mul hb']
    exact_mod_cast hlt
  unfold roundFloat64
  simp only [Int.natAbs_ofNat]
  have hdvd := spacing_dvd_of_le 2100 (a / b) (a' / b) (Nat.div_le_div_right haa)
  have hup := spacing_upper 2100 (a / b) hn
  have hlo := spacing_lower 2100 (a' / b)
  have hgpos := spacing_pos 2100 (a / b)
  have hgpos' := spacing_pos 2100 (a' / b)
  obtain ⟨k, hk⟩ := spacing_eq_pow 2100 (a / b)
  obtain ⟨k', hk'⟩ := spacing_eq_pow 2100 (a' / b)
  generalize spacing 2100 (a / b) = g at *
  generalize spacing 2100 (a' / b) = g' at *
  have hgi : (0 : Int) < g := by exact_mod_cast hgpos
  have hgi' : (0 : Int) < g' := by exact_mod_cast hgpos'
  have hkk : k ≤ k' := by
    rw [hk, hk'] at hdvd
    exact (Nat.pow_dvd_pow_iff_le_right (by norm_num)).mp hdvd
  rcases hkk.lt_or_eq with hlt' | heq
  · -- the two values lie in different binades
    have h2g : 2 * g ≤ g' := by
      rw [hk, hk']
      calc 2 * 2 ^ k = 2 ^ (k + 1) := by rw [pow_succ, Nat.mul_comm]
        _ ≤ 2 ^ k' := Nat.pow_le_pow_right (by norm_num) hlt'
    have hg1 : g' ≠ 1 := by omega
    have hlo' : 4503599627370496 * g' ≤ a' / b := by
      rcases hlo with h1 | h1
      · exact absurd h1 hg1
      · exact h1
    have hA : a < 9007199254740992 * g * b := by
      have := (Nat.div_lt_iff_lt_mul hb').mp hup
      exact this
    have hA' : 4503599627370496 * g' * b ≤ a' := (Nat.le_div_iff_mul_le hb').mp hlo'
    have hAi : (a : Int) ≤ 9007199254740992 * ((b : Int) * g) := by
      have : (a : Int) < 9007199254740992 * g * b := by exact_mod_cast hA
      nlinarith
    have hAi' : (4503599627370496 : Int) * ((b : Int) * g') ≤ a' := by
      have : (4503599627370496 : Int) * g' * b ≤ a' := by exact_mod_cast hA'
      nlinarith
    have h1 := roundHalfEven_le (a : Int) ((b : Int) * g) 9007199254740992 (mul_pos hb hgi) hAi
    have h2 := le_roundHalfEven (a' : Int) ((b : Int) * g') 4503599627370496 (mul_pos hb hgi') hAi'
    have h2gi : (2 : Int) * g ≤ g' := by exact_mod_cast h2g
    calc roundHalfEven (a : Int) ((b : Int) * g) * g
        ≤ 9007199254740992 * g := mul_le_mul_of_nonneg_right h1 hgi.le
      _ ≤ 4503599627370496 * g' := by linarith
      _ ≤ roundHalfEven (a' : Int) ((b : Int) * g') * g' := mul_le_mul_of_nonneg_right h2 hgi'.le
  · -- same binade
    have hgg : g = g' := by rw [hk, hk', heq]
    subst hgg
    exact mul_le_mul_of_nonneg_right
      (roundHalfEven_mono _ _ _ (mul_pos hb hgi) h) hgi.le

theorem float64_fuel (m : Nat) (hm : m ≤ 53) : (2 : Int) ^ m * float64Unit ≤ 2 ^ 2153 := by
  rw [float64Unit_eq, ← pow_add]
  exact pow_le_pow_right₀ (by norm_num) (by omega)

theorem Float64_div_nsec_bounds (nsec : Int) (hn0 : 0 ≤ nsec) (hn1 : nsec < 1000000000) :
    0 ≤ Float64.div (nsec * float64Unit) (1000000000 * float64Unit) ∧
    Float64.div (nsec * float64Unit) (1000000000 * float64Unit) ≤ float64Unit := by
  have hU := float64Unit_pos
  have hE9 : (0 : Int) < 1000000000 * float64Unit := mul_pos (by norm_num) hU
  have hfa : 0 ≤ nsec * float64Unit * float64Unit := mul_nonneg (mul_nonneg hn0 hU.le) hU.le
  have hflt : nsec * float64Unit * float64Unit
      < 2 ^ (53 + (0 + 1021)) * (1000000000 * float64Unit) := by
    rw [pow_mul_float64Unit]
    have : nsec * float64Unit < 1000000000 * float64Unit := mul_lt_mul_of_pos_right hn1 hU
    nlinarith
  unfold Float64.div
  rw [if_pos hE9]
  constructor
  · exact le_roundFloat64 _ _ 0 (0 + 1021) hfa hE9 hflt (dvd_zero _) (by simpa using hfa)
  · refine roundFloat64_le _ _ float64Unit (0 + 1021) hfa hE9 hflt
      (pow_dvd_float64Unit _ (by norm_num)) ?_
    have : nsec * float64Unit ≤ 1000000000 * float64Unit := by nlinarith
    nlinarith

theorem Float64_add_bounds (x y lo hi : Int) (m : Nat) (h0 : 0 ≤ x + y)
    (hlt : x + y < 2 ^ m * float64Unit) (hlo : (2 : Int) ^ (m + 1021) ∣ lo)
    (hhi : (2 : Int) ^ (m + 1021) ∣ hi) (h1 : lo ≤ x + y) (h2 : x + y ≤ hi) :
    lo ≤ Float64.add x y ∧ Float64.add x y ≤ hi := by
  have hlt' : x + y < 2 ^ (53 + (m + 1021)) * 1 := by
    rw [pow_mul_float64Unit, mul_one]; exact hlt
  unfold Float64.add
  exact ⟨le_roundFloat64 _ 1 _ (m + 1021) h0 one_pos hlt' hlo (by linarith),
    roundFloat64_le _ 1 _ (m + 1021) h0 one_pos hlt' hhi (by linarith)⟩

theorem reqSec_mono (d d' : Int) (h0 : 0 ≤ d) (h : d ≤ d') (h1 : d' ≤ 9223372036854775807) :
    reqSec d ≤ reqSec d' := by
  have hU := float64Unit_pos
  have hfuel := float64_fuel 34 (by norm_num)
  have hdU : (2 : Int) ^ (34 + 1021) ∣ float64Unit := pow_dvd_float64Unit _ (by norm_num)
  have e53 : (1000000000 : Int) < 2 ^ 53 := by norm_num
  have e34 : (2 : Int) ^ 34 = 17179869184 := by norm_num
  have hsec : ∀ x : Int, 0 ≤ x → x ≤ 9223372036854775807 →
      reqSec x = Int.tdiv (Float64.add (Float64.add ((x / 1000000000) * float64Unit)
        (Float64.div ((x % 1000000000) * float64Unit) (1000000000 * float64Unit)))
        (1 * float64Unit)) float64Unit := by
    intro x hx0 hx1
    have htd : Int.tdiv x Second = x / 1000000000 := by
      unfold Second; exact Int.tdiv_eq_ediv hx0 (by norm_num)
    have htm : Int.tmod x Second = x % 1000000000 := by
      unfold Second; exact Int.tmod_eq_emod hx0 (by norm_num)
    unfold reqSec Duration.Seconds goInt
    rw [htd, htm, Float64_ofInt_eq (x / 1000000000) (by omega) (by norm_num; omega),
      Float64_ofInt_eq (x % 1000000000) (by omega) (by norm_num; omega),
      Float64_ofInt_eq 1000000000 (by norm_num) (by norm_num),
      Float64_ofInt_eq 1 (by norm_num) (by norm_num)]
  rw [hsec d h0 (by omega), hsec d' (by omega) h1]
  have hs : 0 ≤ d / 1000000000 ∧ d / 1000000000 ≤ 9223372036 := by omega
  have hs' : 0 ≤ d' / 1000000000 ∧ d' / 1000000000 ≤ 9223372036 := by omega
  have hss : d / 1000000000 ≤ d' / 1000000000 := by omega
  have hf := Float64_div_nsec_bounds (d % 1000000000) (by omega) (by omega)
  have hf' := Float64_div_nsec_bounds (d' % 1000000000) (by omega) (by omega)
  have hff : d / 1000000000 = d' / 1000000000 →
      Float64.div (d % 1000000000 * float64Unit) (1000000000 * float64Unit)
        ≤ Float64.div (d' % 1000000000 * float64Unit) (1000000000 * float64Unit) := by
    intro heq
    have hE9 : (0 : Int) < 1000000000 * float64Unit := mul_pos (by norm_num) hU
    have hn : d % 1000000000 ≤ d' % 1000000000 := by omega
    unfold Float64.div
    rw [if_pos hE9, if_pos hE9]
    refine roundFloat64_mono _ _ _ (mul_nonneg (mul_nonneg (by omega) hU.le) hU.le) ?_ hE9 ?_
    · exact mul_le_mul_of_nonneg_right (mul_le_mul_of_nonneg_right hn hU.le) hU.le
    · have h53 := float64_fuel 0 (by norm_num)
      have : d % 1000000000 * float64Unit < 1000000000 * float64Unit :=
        mul_lt_mul_of_pos_right (by omega) hU
      have hpos : (0 : Int) < 2 ^ 2153 := by positivity
      nlinarith
  generalize Float64.div (d % 1000000000 * float64Unit) (1000000000 * float64Unit) = f at *
  generalize Float64.div (d' % 1000000000 * float64Unit) (1000000000 * float64Unit) = f' at *
  generalize d / 1000000000 = s at *
  generalize d' / 1000000000 = s' at *
  have hsU : s * float64Unit ≤ s' * float64Unit := mul_le_mul_of_nonneg_right hss hU.le
  have hs0 : 0 ≤ s * float64Unit := mul_nonneg hs.1 hU.le
  have hs0' : 0 ≤ s' * float64Unit := mul_nonneg hs'.1 hU.le
  have hsl : ∀ z : Int, z ≤ 9223372036 → (z + 2) * float64Unit < 2 ^ 34 * float64Unit := by
    intro z hz
    rw [e34]
    exact mul_lt_mul_of_pos_right (by omega) hU
  have ht := Float64_add_bounds (s * float64Unit) f (s * float64Unit) ((s + 1) * float64Unit) 34
    (by linarith) (by nlinarith [hsl s hs.2]) (Dvd.dvd.mul_left hdU _) (Dvd.dvd.mul_left hdU _)
    (by linarith) (by nlinarith)
  have ht' := Float64_add_bounds (s' * float64Unit) f' (s' * float64Unit) ((s' + 1) * float64Unit) 34
    (by linarith) (by nlinarith [hsl s' hs'.2]) (Dvd.dvd.mul_left hdU _) (Dvd.dvd.mul_left hdU _)
    (by linarith) (by nlinarith)
  have htt : Float64.add (s * float64Unit) f ≤ Float64.add (s' * float64Unit) f' := by
    rcases hss.lt_or_eq with hlt | heq
    · have : (s + 1) * float64Unit ≤ s' * float64Unit :=
        mul_le_mul_of_nonneg_right (by omega) hU.le
      linarith [ht.2, ht'.1]
    · subst heq
      unfold Float64.add
      refine roundFloat64_mono _ _ 1 (by linarith) (by linarith [hff rfl]) one_pos ?_
      nlinarith [hsl s hs.2]
  generalize Float64.add (s * float64Unit) f = t at *
  generalize Float64.add (s' * float64Unit) f' = t' at *
  have huu : Float64.add t (1 * float64Unit) ≤ Float64.add t' (1 * float64Unit) := by
    unfold Float64.add
    refine roundFloat64_mono _ _ 1 (by linarith [ht.1]) (by linarith) one_pos ?_
    nlinarith [hsl s hs.2, ht.2]
  have hu := Float64_add_bounds t (1 * float64Unit) ((s + 1) * float64Unit) ((s + 2) * float64Unit) 34
    (by linarith [ht.1]) (by nlinarith [hsl s hs.2, ht.2]) (Dvd.dvd.mul_left hdU _)
    (Dvd.dvd.mul_left hdU _) (by linarith [ht.1]) (by linarith [ht.2])
  have hu' := Float64_add_bounds t' (1 * float64Unit) ((s' + 1) * float64Unit) ((s' + 2) * float64Unit) 34
    (by linarith [ht'.1]) (by nlinarith [hsl s' hs'.2, ht'.2]) (Dvd.dvd.mul_left hdU _)
    (Dvd.dvd.mul_left hdU _) (by linarith [ht'.1]) (by linarith [ht'.2])
  generalize Float64.add t (1 * float64Unit) = u at *
  generalize Float64.add t' (1 * float64Unit) = u' at *
  have hu0 : 0 ≤ u := le_trans (mul_nonneg (by omega) hU.le) hu.1
  have hu0' : 0 ≤ u' := le_trans (mul_nonneg (by omega) hU.le) hu'.1
  rw [Int.tdiv_eq_ediv hu0 hU.le, Int.tdiv_eq_ediv hu0' hU.le]
  exact Int.ediv_le_ediv hU huu

/-! ## The branches of `Reconcile` -/

theorem Reconcile_get_error {σ : Type} (r : CruiseControlOperationTTLReconciler σ) (req : Request)
    (now₁ now₂ : Int) (e : Env σ) (err : APIError)
    (hget : r.Get e.store ⟨req.Namespace, req.Name⟩ = Except.error err) :
    r.Reconcile req now₁ now₂ e =
      (if IsNotFound err then reconciled else requeueWithError err.Error err,
        ⟨e.store, e.calls ++ [Call.get ⟨req.Namespace, req.Name⟩]⟩) := by
  unfold CruiseControlOperationTTLReconciler.Reconcile CruiseControlOperationTTLReconciler.callGet
  rw [hget]
  dsimp only
  split <;> rfl

theorem Reconcile_not_eligible {σ : Type} (r : CruiseControlOperationTTLReconciler σ) (req : Request)
    (now₁ now₂ : Int) (e : Env σ) (obj : CruiseControlOperation)
    (hget : r.Get e.store ⟨req.Namespace, req.Name⟩ = Except.ok obj)
    (h : obj.GetTTLSecondsAfterFinished = none ∨ obj.CurrentTaskFinished = none) :
    r.Reconcile req now₁ now₂ e =
      (reconciled, ⟨e.store, e.calls ++ [Call.get ⟨req.Namespace, req.Name⟩]⟩) := by
  unfold CruiseControlOperationTTLReconciler.Reconcile CruiseControlOperationTTLReconciler.callGet
  rw [hget]
  dsimp only
  split
  · rename_i h1 h2
    rcases h with h | h
    · rw [h] at h1; cases h1
    · rw [h] at h2; cases h2
  · rfl

theorem Reconcile_eligible {σ : Type} (r : CruiseControlOperationTTLReconciler σ) (req : Request)
    (now₁ now₂ : Int) (e : Env σ) (obj : CruiseControlOperation) (ttlSeconds finishedAt : Int)
    (hget : r.Get e.store ⟨req.Namespace, req.Name⟩ = Except.ok obj)
    (httl : obj.GetTTLSecondsAfterFinished = some ttlSeconds)
    (hfin : obj.CurrentTaskFinished = some finishedAt) :
    r.Reconcile req now₁ now₂ e =
      if IsExpired (Duration.mul ttlSeconds Second) finishedAt now₁ then
        r.delete obj ⟨e.store, e.calls ++ [Call.get ⟨req.Namespace, req.Name⟩]⟩
      else
        (requeueAfter (reqSec
          (Until now₂ (Time.Add finishedAt (Duration.mul ttlSeconds Second)))),
          ⟨e.store, e.calls ++ [Call.get ⟨req.Namespace, req.Name⟩]⟩) := by
  unfold CruiseControlOperationTTLReconciler.Reconcile CruiseControlOperationTTLReconciler.callGet
  rw [hget]
  dsimp only
  rw [httl, hfin]

theorem delete_env {σ : Type} (r : CruiseControlOperationTTLReconciler σ)
    (obj : CruiseControlOperation) (e : Env σ) :
    (r.delete obj e).2 = ⟨(r.Delete e.store obj).2, e.calls ++ [Call.delete obj]⟩ := by
  unfold CruiseControlOperationTTLReconciler.delete CruiseControlOperationTTLReconciler.callDelete
  split
  · split <;> simp_all
  · simp_all

theorem delete_outcome {σ : Type} (r : CruiseControlOperationTTLReconciler σ)
    (obj : CruiseControlOperation) (e : Env σ) :
    (r.delete obj e).1 =
      match (r.Delete e.store obj).1 with
      | none => (Result.empty, none)
      | some err => if IsNotFound err then (Result.empty, none) else (Result.empty, some err) := by
  unfold CruiseControlOperationTTLReconciler.delete CruiseControlOperationTTLReconciler.callDelete
  cases h : (r.Delete e.store obj).1 with
  | none => simp
  | some err => cases hn : IsNotFound err <;> simp [hn, requeueWithError]

theorem deleteCalls_append (xs ys : List Call) :
    deleteCalls (xs ++ ys) = deleteCalls xs ++ deleteCalls ys := by
  induction xs with
  | nil => rfl
  | cons c cs ih =>
    cases c with
    | get k => simpa [deleteCalls] using ih
    | delete o => simpa [deleteCalls] using ih

/-! ## Arithmetic of the remaining time -/

theorem floor_seconds (d : Int) : ⌊(d : ℚ) / 1000000000⌋ = d / 1000000000 := by
  have h := Rat.floor_intCast_div_natCast d 1000000000
  simpa using h

theorem remaining_nonneg (ttlSeconds finishedAt now : Int)
    (h : IsExpired (Duration.mul ttlSeconds Second) finishedAt now = false) :
    0 ≤ remaining ttlSeconds finishedAt now := by
  unfold IsExpired Since at h
  unfold remaining Until Time.Add
  simp only [decide_eq_false_iff_not, not_lt, gt_iff_lt] at h
  unfold Time.Sub Duration.mul wrapInt64 Second minDuration maxDuration at *
  split_ifs at h ⊢ <;> omega

theorem remaining_eq (ttlSeconds finishedAt now : Int)
    (h : IsExpired (Duration.mul ttlSeconds Second) finishedAt now = false) :
    remaining ttlSeconds finishedAt now
      = min (finishedAt + Duration.mul ttlSeconds Second - now) maxDuration := by
  unfold IsExpired Since at h
  unfold remaining Until Time.Add
  simp only [decide_eq_false_iff_not, not_lt, gt_iff_lt] at h
  unfold Time.Sub Duration.mul wrapInt64 Second minDuration maxDuration at *
  split_ifs at h ⊢ <;> omega

theorem remaining_le_maxDuration (ttlSeconds finishedAt now : Int) :
    remaining ttlSeconds finishedAt now ≤ 9223372036854775807 := by
  unfold remaining Until Time.Sub minDuration maxDuration
  split_ifs <;> omega

theorem requeueAfter_eq (sec : Int) (h0 : -9223372036 ≤ sec) (h1 : sec ≤ 9223372036) :
    requeueAfter sec = (⟨false, sec * 1000000000⟩, none) := by
  have h : Duration.mul sec Second = sec * 1000000000 := by
    unfold Duration.mul wrapInt64 Second
    omega
  unfold requeueAfter
  rw [h]

theorem Reconcile_not_expired {σ : Type} (r : CruiseControlOperationTTLReconciler σ) (req : Request)
    (now₁ now₂ : Int) (e : Env σ) (obj : CruiseControlOperation) (ttlSeconds finishedAt : Int)
    (hget : r.Get e.store ⟨req.Namespace, req.Name⟩ = Except.ok obj)
    (httl : obj.GetTTLSecondsAfterFinished = some ttlSeconds)
    (hfin : obj.CurrentTaskFinished = some finishedAt)
    (hnot : IsExpired (Duration.mul ttlSeconds Second) finishedAt now₁ = false) :
    r.Reconcile req now₁ now₂ e =
      (requeueAfter (reqSec (remaining ttlSeconds finishedAt now₂)),
        ⟨e.store, e.calls ++ [Call.get ⟨req.Namespace, req.Name⟩]⟩) := by
  rw [Reconcile_eligible r req now₁ now₂ e obj ttlSeconds finishedAt hget httl hfin, hnot]
  rfl

/-! ## Expiry -/

/-- C1: with the clock reading `now`, `IsExpired ttl finishedAt` is true exactly
when `now - finishedAt > ttl`, strictly: at equality it is false.  The
difference is the one `time.Since` computes (`Time.Sub`); whenever the plain
difference of the two instants fits a `Duration` the two agree, and the same
holds of the plain difference. -/
theorem C1_IsExpired_iff_strictly_later (ttl : Int) (finishedAt now : Int) :
    (IsExpired ttl finishedAt now = true ↔ Time.Sub now finishedAt > ttl) ∧
    (Time.Sub now finishedAt = ttl → IsExpired ttl finishedAt now = false) ∧
    (minDuration ≤ now - finishedAt → now - finishedAt ≤ maxDuration →
      (IsExpired ttl finishedAt now = true ↔ now - finishedAt > ttl) ∧
      (now - finishedAt = ttl → IsExpired ttl finishedAt now = false)) := by
  unfold IsExpired Since Time.Sub minDuration maxDuration
  refine ⟨by simp, ?_, ?_⟩
  · intro h
    simp [h]
  · intro h1 h2
    have e1 : ¬ (now - finishedAt < -9223372036854775808) := by omega
    have e2 : ¬ (9223372036854775807 < now - finishedAt) := by omega
    simp only [e1, e2, if_false]
    refine ⟨by simp, ?_⟩
    intro h
    simp [h]

/-- Witness of C1: a minute of TTL, read 61, 60 and 59 seconds after completion. -/
theorem C1_IsExpired_iff_strictly_later_witness :
    IsExpired (60 * Second) 0 (61 * Second) = true ∧
    IsExpired (60 * Second) 0 (60 * Second) = false ∧
    IsExpired (60 * Second) 0 (59 * Second) = false ∧
    (minDuration ≤ 60 * Second - 0 ∧ 60 * Second - 0 ≤ maxDuration ∧
      Time.Sub (60 * Second) 0 = 60 * Second) :=
  ⟨by decide,
   ((C1_IsExpired_iff_strictly_later (60 * Second) 0 (60 * Second)).2.2 (by decide) (by decide)).2
     (by decide),
   by decide, by decide, by decide, by decide⟩

/-! ## The expired branch -/

/-- C2: for a record the store returns, holding both a TTL and a completion
time and expired at the reading `now₁`, `Reconcile` issues exactly one delete
call, for that very record (after its one get), leaves the store as that
delete left it, and returns `Done` when the delete reports no error. -/
theorem C2_expired_record_deleted_once {σ : Type} (r : CruiseControlOperationTTLReconciler σ)
    (req : Request) (now₁ now₂ : Int) (e : Env σ) (obj : CruiseControlOperation)
    (ttlSeconds finishedAt : Int)
    (hget : r.Get e.store ⟨req.Namespace, req.Name⟩ = Except.ok obj)
    (httl : obj.GetTTLSecondsAfterFinished = some ttlSeconds)
    (hfin : obj.CurrentTaskFinished = some finishedAt)
    (hexp : IsExpired (Duration.mul ttlSeconds Second) finishedAt now₁ = true) :
    (r.Reconcile req now₁ now₂ e).2.calls
        = e.calls ++ [Call.get ⟨req.Namespace, req.Name⟩, Call.delete obj] ∧
    deleteCalls (r.Reconcile req now₁ now₂ e).2.calls = deleteCalls e.calls ++ [obj] ∧
    (r.Reconcile req now₁ now₂ e).2.store = (r.Delete e.store obj).2 ∧
    ((r.Delete e.store obj).1 = none → (r.Reconcile req now₁ now₂ e).1 = Done) := by
  rw [Reconcile_eligible r req now₁ now₂ e obj ttlSeconds finishedAt hget httl hfin, hexp, if_pos rfl,
    delete_env, delete_outcome]
  refine ⟨by simp, ?_, rfl, ?_⟩
  · simp [deleteCalls_append, deleteCalls]
  · intro h
    rw [h]
    rfl

/-- Witness of C2: TTL 60 s, finished 61 s before the reading; the in-memory
store holds the record and its delete succeeds. -/
theorem C2_expired_record_deleted_once_witness :
    IsExpired (Duration.mul 60 Second) (939 * Second) (1000 * Second) = true ∧
    (memReconciler.Reconcile sampleReq (1000 * Second) (1000 * Second)
      ⟨[sampleOp (some 60) (some (939 * Second))], []⟩).1 = Done ∧
    deleteCalls (memReconciler.Reconcile sampleReq (1000 * Second) (1000 * Second)
      ⟨[sampleOp (some 60) (some (939 * Second))], []⟩).2.calls
        = [sampleOp (some 60) (some (939 * Second))] :=
  have h := C2_expired_record_deleted_once memReconciler sampleReq (1000 * Second) (1000 * Second)
    ⟨[sampleOp (some 60) (some (939 * Second))], []⟩ (sampleOp (some 60) (some (939 * Second)))
    60 (939 * Second) (by rfl) (by rfl) (by rfl) (by decide)
  ⟨by decide, h.2.2.2 (by rfl), h.2.1⟩

/-- C3: for an expired record, the outcome of `Reconcile` when the delete
reports not-found is the outcome it has when the delete succeeds: `Done`,
without error. -/
theorem C3_delete_not_found_same_as_success {σ τ : Type}
    (r : CruiseControlOperationTTLReconciler σ) (r' : CruiseControlOperationTTLReconciler τ)
    (req : Request) (now₁ now₂ : Int) (e : Env σ) (e' : Env τ) (obj : CruiseControlOperation)
    (ttlSeconds finishedAt : Int) (err : APIError)
    (hget : r.Get e.store ⟨req.Namespace, req.Name⟩ = Except.ok obj)
    (hget' : r'.Get e'.store ⟨req.Namespace, req.Name⟩ = Except.ok obj)
    (httl : obj.GetTTLSecondsAfterFinished = some ttlSeconds)
    (hfin : obj.CurrentTaskFinished = some finishedAt)
    (hexp : IsExpired (Duration.mul ttlSeconds Second) finishedAt now₁ = true)
    (hdel : (r.Delete e.store obj).1 = some err) (hnf : IsNotFound err = true)
    (hdel' : (r'.Delete e'.store obj).1 = none) :
    (r.Reconcile req now₁ now₂ e).1 = (r'.Reconcile req now₁ now₂ e').1 ∧
    (r.Reconcile req now₁ now₂ e).1 = Done ∧
    (r.Reconcile req now₁ now₂ e).1.2 = none := by
  rw [Reconcile_eligible r req now₁ now₂ e obj ttlSeconds finishedAt hget httl hfin,
    Reconcile_eligible r' req now₁ now₂ e' obj ttlSeconds finishedAt hget' httl hfin, hexp,
    if_pos rfl, if_pos rfl, delete_outcome, delete_outcome, hdel, hdel']
  simp [hnf, Done]

/-- Witness of C3: TTL 60 s, finished 61 s before the reading, once with a
delete that reports not-found and once with a delete that succeeds. -/
theorem C3_delete_not_found_same_as_success_witness :
    IsExpired (Duration.mul 60 Second) (939 * Second) (1000 * Second) = true ∧
    IsNotFound (APIError.NotFound "gone") = true ∧
    ((faultyReconciler none (some (APIError.NotFound "gone"))).Reconcile sampleReq
      (1000 * Second) (1000 * Second) ⟨[sampleOp (some 60) (some (939 * Second))], []⟩).1 = Done :=
  ⟨by decide, by decide,
   (C3_delete_not_found_same_as_success (faultyReconciler none (some (APIError.NotFound "gone")))
    memReconciler sampleReq (1000 * Second) (1000 * Second)
    ⟨[sampleOp (some 60) (some (939 * Second))], []⟩
    ⟨[sampleOp (some 60) (some (939 * Second))], []⟩
    (sampleOp (some 60) (some (939 * Second))) 60 (939 * Second) (APIError.NotFound "gone")
    (by rfl) (by rfl) (by rfl) (by rfl) (by decide) (by rfl) (by rfl) (by rfl)).2.1⟩

/-! ## The branches without effect -/

/-- C4: for a record the store returns whose TTL is absent or whose completion
time is absent, whatever the other field and the clock readings, `Reconcile`
returns `Done` (no error, no requeue delay), issues no delete call (only its
get) and leaves the store unchanged. -/
theorem C4_missing_ttl_or_finish_is_noop {σ : Type} (r : CruiseControlOperationTTLReconciler σ)
    (req : Request) (now₁ now₂ : Int) (e : Env σ) (obj : CruiseControlOperation)
    (hget : r.Get e.store ⟨req.Namespace, req.Name⟩ = Except.ok obj)
    (h : obj.GetTTLSecondsAfterFinished = none ∨ obj.CurrentTaskFinished = none) :
    (r.Reconcile req now₁ now₂ e).1 = Done ∧
    (r.Reconcile req now₁ now₂ e).1.1.RequeueAfter = 0 ∧
    (r.Reconcile req now₁ now₂ e).1.2 = none ∧
    (r.Reconcile req now₁ now₂ e).2.calls = e.calls ++ [Call.get ⟨req.Namespace, req.Name⟩] ∧
    deleteCalls (r.Reconcile req now₁ now₂ e).2.calls = deleteCalls e.calls ∧
    (r.Reconcile req now₁ now₂ e).2.store = e.store := by
  rw [Reconcile_not_eligible r req now₁ now₂ e obj hget h]
  refine ⟨rfl, rfl, rfl, rfl, ?_, rfl⟩
  simp [deleteCalls_append, deleteCalls]

/-- Witness of C4: no TTL, finished 1000 s before the reading. -/
theorem C4_missing_ttl_or_finish_is_noop_witness :
    (memReconciler.Reconcile sampleReq (2000 * Second) (2000 * Second)
      ⟨[sampleOp none (some (1000 * Second))], []⟩).1 = Done ∧
    deleteCalls (memReconciler.Reconcile sampleReq (2000 * Second) (2000 * Second)
      ⟨[sampleOp none (some (1000 * Second))], []⟩).2.calls = [] ∧
    (memReconciler.Reconcile sampleReq (2000 * Second) (2000 * Second)
      ⟨[sampleOp none (some (1000 * Second))], []⟩).2.store = [sampleOp none (some (1000 * Second))] :=
  have h := C4_missing_ttl_or_finish_is_noop memReconciler sampleReq (2000 * Second) (2000 * Second)
    ⟨[sampleOp none (some (1000 * Second))], []⟩ (sampleOp none (some (1000 * Second)))
    (by rfl) (Or.inl (by rfl))
  ⟨h.1, h.2.2.2.2.1, h.2.2.2.2.2⟩

/-- C5: when the get of the requested key reports not-found, `Reconcile`
returns `Done` (no error, no requeue delay) and issues no delete call; the
store is left unchanged. -/
theorem C5_get_not_found_is_done {σ : Type} (r : CruiseControlOperationTTLReconciler σ)
    (req : Request) (now₁ now₂ : Int) (e : Env σ) (err : APIError)
    (hget : r.Get e.store ⟨req.Namespace, req.Name⟩ = Except.error err)
    (hnf : IsNotFound err = true) :
    (r.Reconcile req now₁ now₂ e).1 = Done ∧
    (r.Reconcile req now₁ now₂ e).1.1.RequeueAfter = 0 ∧
    (r.Reconcile req now₁ now₂ e).1.2 = none ∧
    (r.Reconcile req now₁ now₂ e).2.calls = e.calls ++ [Call.get ⟨req.Namespace, req.Name⟩] ∧
    deleteCalls (r.Reconcile req now₁ now₂ e).2.calls = deleteCalls e.calls ∧
    (r.Reconcile req now₁ now₂ e).2.store = e.store := by
  rw [Reconcile_get_error r req now₁ now₂ e err hget, hnf, if_pos rfl]
  refine ⟨rfl, rfl, rfl, rfl, ?_, rfl⟩
  simp [deleteCalls_append, deleteCalls]

/-- Witness of C5: the in-memory store is empty, so the get reports not-found. -/
theorem C5_get_not_found_is_done_witness :
    memReconciler.Get [] ⟨"kafka", "op"⟩ = Except.error (APIError.NotFound "not found") ∧
    (memReconciler.Reconcile sampleReq (1000 * Second) (1000 * Second) ⟨[], []⟩).1 = Done ∧
    deleteCalls (memReconciler.Reconcile sampleReq (1000 * Second) (1000 * Second) ⟨[], []⟩).2.calls
      = [] :=
  have h := C5_get_not_found_is_done memReconciler sampleReq (1000 * Second) (1000 * Second)
    ⟨[], []⟩ (APIError.NotFound "not found") (by rfl) (by rfl)
  ⟨by rfl, h.1, h.2.2.2.2.1⟩

/-! ## Failures -/

/-- The get of the requested key fails with an error other than not-found. -/
def GetFails {σ : Type} (r : CruiseControlOperationTTLReconciler σ) (req : Request) (e : Env σ)
    (err : APIError) : Prop :=
  r.Get e.store ⟨req.Namespace, req.Name⟩ = Except.error err ∧ IsNotFound err = false

/-- The get returns a record with TTL and completion time, expired at `now₁`,
and its delete fails with an error other than not-found. -/
def DeleteFails {σ : Type} (r : CruiseControlOperationTTLReconciler σ) (req : Request) (now₁ : Int)
    (e : Env σ) (err : APIError) : Prop :=
  ∃ obj ttlSeconds finishedAt,
    r.Get e.store ⟨req.Namespace, req.Name⟩ = Except.ok obj ∧
    obj.GetTTLSecondsAfterFinished = some ttlSeconds ∧
    obj.CurrentTaskFinished = some finishedAt ∧
    IsExpired (Duration.mul ttlSeconds Second) finishedAt now₁ = true ∧
    (r.Delete e.store obj).1 = some err ∧ IsNotFound err = false

theorem Reconcile_error_iff {σ : Type} (r : CruiseControlOperationTTLReconciler σ) (req : Request)
    (now₁ now₂ : Int) (e : Env σ) (err : APIError) :
    (r.Reconcile req now₁ now₂ e).1.2 = some err ↔
      GetFails r req e err ∨ DeleteFails r req now₁ e err := by
  unfold GetFails DeleteFails
  cases hget : r.Get e.store ⟨req.Namespace, req.Name⟩ with
  | error ge =>
    rw [Reconcile_get_error r req now₁ now₂ e ge hget]
    cases hn : IsNotFound ge <;> simp [hn, reconciled, requeueWithError]
    · intro h; subst h; exact hn
    · intro h; subst h; simp [hn]
  | ok obj =>
    cases httl : obj.GetTTLSecondsAfterFinished with
    | none =>
      rw [Reconcile_not_eligible r req now₁ now₂ e obj hget (Or.inl httl)]
      simp [reconciled, httl]
    | some ttlSeconds =>
      cases hfin : obj.CurrentTaskFinished with
      | none =>
        rw [Reconcile_not_eligible r req now₁ now₂ e obj hget (Or.inr hfin)]
        simp [reconciled, hfin]
      | some finishedAt =>
        rw [Reconcile_eligible r req now₁ now₂ e obj ttlSeconds finishedAt hget httl hfin]
        cases hexp : IsExpired (Duration.mul ttlSeconds Second) finishedAt now₁ with
        | false => simp [requeueAfter, httl, hfin, hexp]
        | true =>
          rw [if_pos rfl, delete_outcome]
          cases hdel : (r.Delete e.store obj).1 with
          | none => simp [httl, hfin, hexp, hdel]
          | some de =>
            cases hn : IsNotFound de <;> simp [hn, httl, hfin, hexp, hdel]
            · intro h; subst h; exact hn
            · intro h; subst h; simp [hn]

theorem Reconcile_error_result {σ : Type} (r : CruiseControlOperationTTLReconciler σ) (req : Request)
    (now₁ now₂ : Int) (e : Env σ) (err : APIError)
    (h : (r.Reconcile req now₁ now₂ e).1.2 = some err) :
    (r.Reconcile req now₁ now₂ e).1.1 = Result.empty := by
  revert h
  cases hget : r.Get e.store ⟨req.Namespace, req.Name⟩ with
  | error ge =>
    rw [Reconcile_get_error r req now₁ now₂ e ge hget]
    cases hn : IsNotFound ge <;> simp [reconciled, requeueWithError]
  | ok obj =>
    cases httl : obj.GetTTLSecondsAfterFinished with
    | none =>
      rw [Reconcile_not_eligible r req now₁ now₂ e obj hget (Or.inl httl)]
      simp [reconciled]
    | some ttlSeconds =>
      cases hfin : obj.CurrentTaskFinished with
      | none =>
        rw [Reconcile_not_eligible r req now₁ now₂ e obj hget (Or.inr hfin)]
        simp [reconciled]
      | some finishedAt =>
        rw [Reconcile_eligible r req now₁ now₂ e obj ttlSeconds finishedAt hget httl hfin]
        cases hexp : IsExpired (Duration.mul ttlSeconds Second) finishedAt now₁ with
        | false => simp [requeueAfter]
        | true =>
          rw [if_pos rfl, delete_outcome]
          cases hdel : (r.Delete e.store obj).1 with
          | none => simp
          | some de => cases hn : IsNotFound de <;> simp [hn]

/-- C6: `Reconcile` returns a non-nil error exactly when the get fails with an
error other than not-found, or the record is eligible and expired and its
delete fails with an error other than not-found.  The error returned is then
the store's own error, the result beside it is empty (no requeue delay), and a
not-found error is never returned. -/
theorem C6_failure_iff_store_error {σ : Type} (r : CruiseControlOperationTTLReconciler σ)
    (req : Request) (now₁ now₂ : Int) (e : Env σ) :
    ((r.Reconcile req now₁ now₂ e).1.2 ≠ none ↔
      ∃ err, GetFails r req e err ∨ DeleteFails r req now₁ e err) ∧
    (∀ err, GetFails r req e err ∨ DeleteFails r req now₁ e err ↔
      (r.Reconcile req now₁ now₂ e).1 = (Result.empty, some err)) ∧
    (∀ err, (r.Reconcile req now₁ now₂ e).1.2 = some err → IsNotFound err = false) := by
  refine ⟨?_, ?_, ?_⟩
  · constructor
    · intro h
      cases hr : (r.Reconcile req now₁ now₂ e).1.2 with
      | none => exact absurd hr h
      | some err => exact ⟨err, (Reconcile_error_iff r req now₁ now₂ e err).mp hr⟩
    · rintro ⟨err, h⟩
      rw [(Reconcile_error_iff r req now₁ now₂ e err).mpr h]
      simp
  · intro err
    constructor
    · intro h
      have h1 := (Reconcile_error_iff r req now₁ now₂ e err).mpr h
      have h2 := Reconcile_error_result r req now₁ now₂ e err h1
      exact Prod.ext h2 h1
    · intro h
      exact (Reconcile_error_iff r req now₁ now₂ e err).mp (by rw [h])
  · intro err h
    rcases (Reconcile_error_iff r req now₁ now₂ e err).mp h with h1 | ⟨_, _, _, _, _, _, _, _, h1⟩
    · exact h1.2
    · exact h1

/-- Witness of C6: an expired record whose delete reports a timeout. -/
theorem C6_failure_iff_store_error_witness :
    IsExpired (Duration.mul 60 Second) (939 * Second) (1000 * Second) = true ∧
    ((faultyReconciler none (some (APIError.StoreError "timeout"))).Reconcile sampleReq
      (1000 * Second) (1000 * Second) ⟨[sampleOp (some 60) (some (939 * Second))], []⟩).1
        = (Result.empty, some (APIError.StoreError "timeout")) :=
  ⟨by decide,
   ((C6_failure_iff_store_error (faultyReconciler none (some (APIError.StoreError "timeout")))
      sampleReq (1000 * Second) (1000 * Second)
      ⟨[sampleOp (some 60) (some (939 * Second))], []⟩).2.1 (APIError.StoreError "timeout")).mp
    (Or.inr ⟨sampleOp (some 60) (some (939 * Second)), 60, 939 * Second,
      by rfl, by rfl, by rfl, by decide, by rfl, by rfl⟩)⟩

/-! ## The requeue delay -/

theorem not_expired_delay {σ : Type} (r : CruiseControlOperationTTLReconciler σ) (req : Request)
    (now : Int) (e : Env σ) (obj : CruiseControlOperation) (ttlSeconds finishedAt : Int)
    (hget : r.Get e.store ⟨req.Namespace, req.Name⟩ = Except.ok obj)
    (httl : obj.GetTTLSecondsAfterFinished = some ttlSeconds)
    (hfin : obj.CurrentTaskFinished = some finishedAt)
    (hnot : IsExpired (Duration.mul ttlSeconds Second) finishedAt now = false)
    (hfit : finishedAt + Duration.mul ttlSeconds Second - now < 9223372035 * Second) :
    remaining ttlSeconds finishedAt now = finishedAt + Duration.mul ttlSeconds Second - now ∧
    (r.Reconcile req now now e).1
      = (⟨false, reqSec (remaining ttlSeconds finishedAt now) * 1000000000⟩, none) ∧
    remaining ttlSeconds finishedAt now / 1000000000 + 1
      ≤ reqSec (remaining ttlSeconds finishedAt now) ∧
    reqSec (remaining ttlSeconds finishedAt now)
      ≤ remaining ttlSeconds finishedAt now / 1000000000 + 2 := by
  have hrem := remaining_nonneg ttlSeconds finishedAt now hnot
  have heq := remaining_eq ttlSeconds finishedAt now hnot
  have hfit' : finishedAt + Duration.mul ttlSeconds Second - now ≤ maxDuration := by
    generalize Duration.mul ttlSeconds Second = ttl at hfit ⊢
    unfold Second at hfit
    unfold maxDuration
    omega
  rw [min_eq_left hfit'] at heq
  have hb := reqSec_bounds (remaining ttlSeconds finishedAt now) hrem
    (remaining_le_maxDuration ttlSeconds finishedAt now)
  have hlt : remaining ttlSeconds finishedAt now < 9223372035 * 1000000000 := by
    rw [heq]; exact hfit
  refine ⟨heq, ?_, hb.1, hb.2⟩
  rw [Reconcile_not_expired r req now now e obj ttlSeconds finishedAt hget httl hfin hnot]
  exact requeueAfter_eq _ (by omega) (by omega)

/-- C7 (counterexample): TTL 20000001 s, finished one nanosecond before the
clock reading.  The record is not expired and 20000000.999999999 s remain, so
`floor(remaining) + 1` is 20000001 s; in float64 the sum of the whole seconds
and the fraction rounds up to 20000001.0, and `Reconcile` asks to be requeued
after 20000002 s. -/
theorem C7_float64_rounding_adds_a_second :
    IsExpired (Duration.mul 20000001 Second) (1000 * Second - 1) (1000 * Second) = false ∧
    remaining 20000001 (1000 * Second - 1) (1000 * Second) = 20000001 * Second - 1 ∧
    (20000001 * Second - 1) / 1000000000 + 1 = 20000001 ∧
    (memReconciler.Reconcile sampleReq (1000 * Second) (1000 * Second)
      ⟨[sampleOp (some 20000001) (some (1000 * Second - 1))], []⟩).1
        = (⟨false, 20000002 * Second⟩, none) ∧
    (memReconciler.Reconcile sampleReq (1000 * Second) (1000 * Second)
      ⟨[sampleOp (some 20000001) (some (1000 * Second - 1))], []⟩).1
        ≠ (⟨false, ((20000001 * Second - 1) / 1000000000 + 1) * Second⟩, none) := by
  decide

/-- C7 (amended): for a record with TTL and completion time that is not expired
at the reading `now`, `Reconcile` issues no delete call (only its get), leaves
the store unchanged and returns, without error, the delay
`requeueAfter(int(remaining.Seconds() + 1))`, where `remaining` is what
`time.Until(finishedAt + ttl)` yields at `now`: it is never negative, and it is
`(finishedAt + ttl) - now` whenever that fits a `Duration`.  When less than
8388607 s remain, the float64 expression equals `floor(remaining) + 1` and the
delay is that many whole seconds; when less than 9223372035 s remain, the
delay is `floor(remaining) + 1` or `floor(remaining) + 2` whole seconds. -/
theorem C7_not_expired_requeue_delay {σ : Type} (r : CruiseControlOperationTTLReconciler σ)
    (req : Request) (now : Int) (e : Env σ) (obj : CruiseControlOperation)
    (ttlSeconds finishedAt : Int)
    (hget : r.Get e.store ⟨req.Namespace, req.Name⟩ = Except.ok obj)
    (httl : obj.GetTTLSecondsAfterFinished = some ttlSeconds)
    (hfin : obj.CurrentTaskFinished = some finishedAt)
    (hnot : IsExpired (Duration.mul ttlSeconds Second) finishedAt now = false) :
    (r.Reconcile req now now e).1
      = requeueAfter (reqSec (remaining ttlSeconds finishedAt now)) ∧
    (r.Reconcile req now now e).1.2 = none ∧
    (r.Reconcile req now now e).2.calls = e.calls ++ [Call.get ⟨req.Namespace, req.Name⟩] ∧
    deleteCalls (r.Reconcile req now now e).2.calls = deleteCalls e.calls ∧
    (r.Reconcile req now now e).2.store = e.store ∧
    0 ≤ remaining ttlSeconds finishedAt now ∧
    (finishedAt + Duration.mul ttlSeconds Second - now ≤ maxDuration →
      remaining ttlSeconds finishedAt now = finishedAt + Duration.mul ttlSeconds Second - now) ∧
    ⌊(remaining ttlSeconds finishedAt now : ℚ) / 1000000000⌋
      = remaining ttlSeconds finishedAt now / 1000000000 ∧
    (remaining ttlSeconds finishedAt now < 8388607 * Second →
      reqSec (remaining ttlSeconds finishedAt now)
        = ⌊(remaining ttlSeconds finishedAt now : ℚ) / 1000000000⌋ + 1 ∧
      (r.Reconcile req now now e).1
        = (⟨false, (⌊(remaining ttlSeconds finishedAt now : ℚ) / 1000000000⌋ + 1) * Second⟩,
            none)) ∧
    (remaining ttlSeconds finishedAt now < 9223372035 * Second →
      ((r.Reconcile req now now e).1
        = (⟨false, (⌊(remaining ttlSeconds finishedAt now : ℚ) / 1000000000⌋ + 1) * Second⟩,
            none) ∨
       (r.Reconcile req now now e).1
        = (⟨false, (⌊(remaining ttlSeconds finishedAt now : ℚ) / 1000000000⌋ + 2) * Second⟩,
            none))) := by
  have hrem := remaining_nonneg ttlSeconds finishedAt now hnot
  have hmax := remaining_le_maxDuration ttlSeconds finishedAt now
  have hrec := Reconcile_not_expired r req now now e obj ttlSeconds finishedAt hget httl hfin hnot
  rw [hrec, floor_seconds]
  refine ⟨rfl, rfl, rfl, ?_, rfl, hrem, ?_, rfl, ?_, ?_⟩
  · simp [deleteCalls_append, deleteCalls]
  · intro h
    rw [remaining_eq ttlSeconds finishedAt now hnot]
    exact min_eq_left h
  · intro hlt
    unfold Second at hlt
    have hx := reqSec_exact (remaining ttlSeconds finishedAt now) hrem hlt
    refine ⟨hx, ?_⟩
    show requeueAfter _ = _
    rw [requeueAfter_eq _ (by omega) (by omega), hx]
    rfl
  · intro hlt
    unfold Second at hlt
    have hb := reqSec_bounds (remaining ttlSeconds finishedAt now) hrem hmax
    show requeueAfter _ = _ ∨ requeueAfter _ = _
    rw [requeueAfter_eq _ (by omega) (by omega)]
    have hk : reqSec (remaining ttlSeconds finishedAt now)
          = remaining ttlSeconds finishedAt now / 1000000000 + 1 ∨
        reqSec (remaining ttlSeconds finishedAt now)
          = remaining ttlSeconds finishedAt now / 1000000000 + 2 := by omega
    rcases hk with hk | hk
    · exact Or.inl (by rw [hk]; rfl)
    · exact Or.inr (by rw [hk]; rfl)

/-- Witness of C7 (amended): TTL 60 s, finished 59 s before the reading: one
second remains and the reconcile asks to be requeued after two. -/
theorem C7_not_expired_requeue_delay_witness :
    IsExpired (Duration.mul 60 Second) (941 * Second) (1000 * Second) = false ∧
    remaining 60 (941 * Second) (1000 * Second) = 1 * Second ∧
    remaining 60 (941 * Second) (1000 * Second) < 8388607 * Second ∧
    (memReconciler.Reconcile sampleReq (1000 * Second) (1000 * Second)
      ⟨[sampleOp (some 60) (some (941 * Second))], []⟩).1 = (⟨false, 2 * Second⟩, none) :=
  have h := C7_not_expired_requeue_delay memReconciler sampleReq (1000 * Second)
    ⟨[sampleOp (some 60) (some (941 * Second))], []⟩ (sampleOp (some 60) (some (941 * Second)))
    60 (941 * Second) (by rfl) (by rfl) (by rfl) (by decide)
  ⟨by decide, by decide, by decide,
    by rw [(h.2.2.2.2.2.2.2.2.1 (by decide)).2, h.2.2.2.2.2.2.2.1]; decide⟩

/-- C8 (the code at the failing input): TTL 60 s, the first clock reading
exactly 60 s after completion, so the record is not expired; when the second
reading is one second later the delay handed to `requeueAfter` is 0 and the
outcome is the empty result, the same as `Done`; when it is two seconds later
the delay is minus one second; when it is a single nanosecond later the delay
is 0 again. -/
theorem C8_requeue_delay_not_positive_after_clock_advance :
    IsExpired (Duration.mul 60 Second) (940 * Second) (1000 * Second) = false ∧
    (memReconciler.Reconcile sampleReq (1000 * Second) (1001 * Second)
      ⟨[sampleOp (some 60) (some (940 * Second))], []⟩).1 = (⟨false, 0⟩, none) ∧
    (memReconciler.Reconcile sampleReq (1000 * Second) (1001 * Second)
      ⟨[sampleOp (some 60) (some (940 * Second))], []⟩).1 = Done ∧
    (memReconciler.Reconcile sampleReq (1000 * Second) (1002 * Second)
      ⟨[sampleOp (some 60) (some (940 * Second))], []⟩).1 = (⟨false, -1 * Second⟩, none) ∧
    (memReconciler.Reconcile sampleReq (1000 * Second) (1000 * Second + 1)
      ⟨[sampleOp (some 60) (some (940 * Second))], []⟩).1 = (⟨false, 0⟩, none) := by
  decide

/-- C9 (counterexample): TTL 60 s; at the readings 0.25 s and 0.5 s after
completion the record is not expired and the second reading is later, yet both
reconciles ask for the same delay of 60 s: the delay did not strictly
decrease. -/
theorem C9_delay_not_strictly_decreasing :
    940 * Second + 250000000 < 940 * Second + 500000000 ∧
    IsExpired (Duration.mul 60 Second) (940 * Second) (940 * Second + 250000000) = false ∧
    IsExpired (Duration.mul 60 Second) (940 * Second) (940 * Second + 500000000) = false ∧
    ¬ ((memReconciler.Reconcile sampleReq (940 * Second + 500000000) (940 * Second + 500000000)
          ⟨[sampleOp (some 60) (some (940 * Second))], []⟩).1.1.RequeueAfter
        < (memReconciler.Reconcile sampleReq (940 * Second + 250000000) (940 * Second + 250000000)
          ⟨[sampleOp (some 60) (some (940 * Second))], []⟩).1.1.RequeueAfter) := by
  decide

/-- C9 (amended): for two readings `now1 < now2` at both of which the record
is not expired, with less than 9223372035 s remaining at `now1`, the delay
computed at `now2` is never larger than the delay computed at `now1`; it is
strictly smaller when `now2` is at least two seconds after `now1`, and also
when `now2` is at least one second after `now1` and less than 8388607 s remain
at `now1`. -/
theorem C9_delay_non_increasing {σ : Type} (r : CruiseControlOperationTTLReconciler σ)
    (req : Request) (now1 now2 : Int) (e : Env σ) (obj : CruiseControlOperation)
    (ttlSeconds finishedAt : Int)
    (hget : r.Get e.store ⟨req.Namespace, req.Name⟩ = Except.ok obj)
    (httl : obj.GetTTLSecondsAfterFinished = some ttlSeconds)
    (hfin : obj.CurrentTaskFinished = some finishedAt)
    (hlt : now1 < now2)
    (h1 : IsExpired (Duration.mul ttlSeconds Second) finishedAt now1 = false)
    (h2 : IsExpired (Duration.mul ttlSeconds Second) finishedAt now2 = false)
    (hfit : finishedAt + Duration.mul ttlSeconds Second - now1 < 9223372035 * Second) :
    (r.Reconcile req now2 now2 e).1.1.RequeueAfter ≤ (r.Reconcile req now1 now1 e).1.1.RequeueAfter ∧
    (now1 + 2 * Second ≤ now2 →
      (r.Reconcile req now2 now2 e).1.1.RequeueAfter
        < (r.Reconcile req now1 now1 e).1.1.RequeueAfter) ∧
    (now1 + Second ≤ now2 →
      finishedAt + Duration.mul ttlSeconds Second - now1 < 8388607 * Second →
      (r.Reconcile req now2 now2 e).1.1.RequeueAfter
        < (r.Reconcile req now1 now1 e).1.1.RequeueAfter) := by
  have hfit2 : finishedAt + Duration.mul ttlSeconds Second - now2 < 9223372035 * Second := by
    unfold Second at *
    omega
  obtain ⟨he1, hr1, hlo1, hhi1⟩ :=
    not_expired_delay r req now1 e obj ttlSeconds finishedAt hget httl hfin h1 hfit
  obtain ⟨he2, hr2, hlo2, hhi2⟩ :=
    not_expired_delay r req now2 e obj ttlSeconds finishedAt hget httl hfin h2 hfit2
  have hn1 := remaining_nonneg ttlSeconds finishedAt now1 h1
  have hn2 := remaining_nonneg ttlSeconds finishedAt now2 h2
  have hm1 := remaining_le_maxDuration ttlSeconds finishedAt now1
  have hmono := reqSec_mono (remaining ttlSeconds finishedAt now2)
    (remaining ttlSeconds finishedAt now1) hn2 (by rw [he1, he2]; omega) hm1
  rw [hr1, hr2]
  dsimp only
  have hx1 : remaining ttlSeconds finishedAt now1 < 8388607 * 1000000000 →
      reqSec (remaining ttlSeconds finishedAt now1)
        = remaining ttlSeconds finishedAt now1 / 1000000000 + 1 :=
    fun h => reqSec_exact _ hn1 h
  have hx2 : remaining ttlSeconds finishedAt now2 < 8388607 * 1000000000 →
      reqSec (remaining ttlSeconds finishedAt now2)
        = remaining ttlSeconds finishedAt now2 / 1000000000 + 1 :=
    fun h => reqSec_exact _ hn2 h
  generalize reqSec (remaining ttlSeconds finishedAt now1) = rs1 at *
  generalize reqSec (remaining ttlSeconds finishedAt now2) = rs2 at *
  generalize Duration.mul ttlSeconds Second = ttl at *
  generalize remaining ttlSeconds finishedAt now1 = rem1 at *
  generalize remaining ttlSeconds finishedAt now2 = rem2 at *
  unfold Second at *
  refine ⟨by omega, ?_, ?_⟩
  · intro hs
    omega
  · intro hs hsmall
    have e1 := hx1 (by omega)
    have e2 := hx2 (by omega)
    omega

/-- Witness of C9 (amended): TTL 60 s, readings 0.25 s and 1.25 s after
completion: the delay drops from 60 s to 59 s. -/
theorem C9_delay_non_increasing_witness :
    940 * Second + 250000000 < 941 * Second + 250000000 ∧
    IsExpired (Duration.mul 60 Second) (940 * Second) (940 * Second + 250000000) = false ∧
    IsExpired (Duration.mul 60 Second) (940 * Second) (941 * Second + 250000000) = false ∧
    (memReconciler.Reconcile sampleReq (941 * Second + 250000000) (941 * Second + 250000000)
        ⟨[sampleOp (some 60) (some (940 * Second))], []⟩).1.1.RequeueAfter
      < (memReconciler.Reconcile sampleReq (940 * Second + 250000000) (940 * Second + 250000000)
        ⟨[sampleOp (some 60) (some (940 * Second))], []⟩).1.1.RequeueAfter :=
  ⟨by decide, by decide, by decide,
   (C9_delay_non_increasing memReconciler sampleReq (940 * Second + 250000000)
      (941 * Second + 250000000) ⟨[sampleOp (some 60) (some (940 * Second))], []⟩
      (sampleOp (some 60) (some (940 * Second))) 60 (940 * Second) (by rfl) (by rfl) (by rfl)
      (by decide) (by decide) (by decide) (by decide)).2.2 (by decide) (by decide)⟩

/-! ## The event filter -/

/-- C10: the event predicate admits no Delete event; it admits a Create event
exactly when the object is finished, has a TTL and has a zero deletion
timestamp; it admits an Update event exactly when the new object is finished,
has a TTL and has a zero deletion timestamp, whatever the old object is. -/
theorem C10_event_predicate :
    (∀ ev : DeleteEvent, cruiseControlOperationTTLPredicate.DeleteFunc ev = false) ∧
    (∀ ev : CreateEvent, cruiseControlOperationTTLPredicate.CreateFunc ev = true ↔
      (ev.Object.IsFinished = true ∧ ev.Object.GetTTLSecondsAfterFinished ≠ none ∧
        metav1IsZero ev.Object.GetDeletionTimestamp = true)) ∧
    (∀ ev : UpdateEvent, cruiseControlOperationTTLPredicate.UpdateFunc ev = true ↔
      (ev.ObjectNew.IsFinished = true ∧ ev.ObjectNew.GetTTLSecondsAfterFinished ≠ none ∧
        metav1IsZero ev.ObjectNew.GetDeletionTimestamp = true)) ∧
    (∀ old old' new : CruiseControlOperation,
      cruiseControlOperationTTLPredicate.UpdateFunc ⟨old, new⟩
        = cruiseControlOperationTTLPredicate.UpdateFunc ⟨old', new⟩) := by
  refine ⟨fun _ => rfl, ?_, ?_, fun _ _ _ => rfl⟩
  · intro ev
    simp [cruiseControlOperationTTLPredicate, and_assoc]
  · intro ev
    simp [cruiseControlOperationTTLPredicate, and_assoc]

/-! ## The effect on the store -/

theorem MemStore_get_ok (s : MemStore) (key : ObjectKey) (obj : CruiseControlOperation)
    (h : MemStore.get s key = Except.ok obj) : obj.key = key ∧ obj ∈ s := by
  unfold MemStore.get at h
  split at h
  · rename_i o ho
    cases h
    have hp := List.find?_some ho
    exact ⟨of_decide_eq_true hp, List.mem_of_find?_eq_some ho⟩
  · cases h

theorem MemStore_delete_store (s : MemStore) (obj : CruiseControlOperation) :
    (MemStore.delete s obj).2 = s ∨
    (MemStore.delete s obj).2 = s.filter (fun o => !decide (o.key = obj.key)) := by
  unfold MemStore.delete
  split
  · exact Or.inr rfl
  · exact Or.inl rfl

theorem Reconcile_store {σ : Type} (r : CruiseControlOperationTTLReconciler σ) (req : Request)
    (now₁ now₂ : Int) (e : Env σ) :
    (r.Reconcile req now₁ now₂ e).2.store = e.store ∨
    ∃ obj, r.Get e.store ⟨req.Namespace, req.Name⟩ = Except.ok obj ∧
      (r.Reconcile req now₁ now₂ e).2.store = (r.Delete e.store obj).2 := by
  cases hget : r.Get e.store ⟨req.Namespace, req.Name⟩ with
  | error ge =>
    rw [Reconcile_get_error r req now₁ now₂ e ge hget]
    exact Or.inl rfl
  | ok obj =>
    cases httl : obj.GetTTLSecondsAfterFinished with
    | none =>
      rw [Reconcile_not_eligible r req now₁ now₂ e obj hget (Or.inl httl)]
      exact Or.inl rfl
    | some ttlSeconds =>
      cases hfin : obj.CurrentTaskFinished with
      | none =>
        rw [Reconcile_not_eligible r req now₁ now₂ e obj hget (Or.inr hfin)]
        exact Or.inl rfl
      | some finishedAt =>
        rw [Reconcile_eligible r req now₁ now₂ e obj ttlSeconds finishedAt hget httl hfin]
        cases hexp : IsExpired (Duration.mul ttlSeconds Second) finishedAt now₁ with
        | false => exact Or.inl rfl
        | true =>
          rw [if_pos rfl, delete_env]
          exact Or.inr ⟨obj, rfl, rfl⟩

theorem faulty_Reconcile_store (getFault deleteFault : Option APIError) (req : Request)
    (now₁ now₂ : Int) (m : Env MemStore) :
    ((faultyReconciler getFault deleteFault).Reconcile req now₁ now₂ m).2.store = m.store ∨
    ((faultyReconciler getFault deleteFault).Reconcile req now₁ now₂ m).2.store
      = m.store.filter (fun o => !decide (o.key = (⟨req.Namespace, req.Name⟩ : ObjectKey))) := by
  rcases Reconcile_store (faultyReconciler getFault deleteFault) req now₁ now₂ m with h | ⟨obj, hget, h⟩
  · exact Or.inl h
  · rw [h]
    cases getFault with
    | some ge => simp [faultyReconciler] at hget
    | none =>
      have hk := (MemStore_get_ok m.store _ obj (by simpa [faultyReconciler] using hget)).1
      cases deleteFault with
      | some de => exact Or.inl rfl
      | none =>
        rw [← hk]
        exact MemStore_delete_store m.store obj

/-- C11: the store after `Reconcile` is the store before, or the store the one
delete call on the fetched record leaves.  Over the in-memory map store, with
or without injected faults, whatever the key and the clock readings, the store
after is identical to the store before or is the store before without the
records under the reconciled key: no record is created or modified, and no
record under another key is removed. -/
theorem C11_store_unchanged_or_key_removed {σ : Type} (r : CruiseControlOperationTTLReconciler σ)
    (e : Env σ) (getFault deleteFault : Option APIError) (m : Env MemStore) (req : Request)
    (now₁ now₂ : Int) :
    ((r.Reconcile req now₁ now₂ e).2.store = e.store ∨
      ∃ obj, r.Get e.store ⟨req.Namespace, req.Name⟩ = Except.ok obj ∧
        (r.Reconcile req now₁ now₂ e).2.store = (r.Delete e.store obj).2) ∧
    (((faultyReconciler getFault deleteFault).Reconcile req now₁ now₂ m).2.store = m.store ∨
      ((faultyReconciler getFault deleteFault).Reconcile req now₁ now₂ m).2.store
        = m.store.filter (fun o => !decide (o.key = (⟨req.Namespace, req.Name⟩ : ObjectKey)))) ∧
    ((memReconciler.Reconcile req now₁ now₂ m).2.store = m.store ∨
      (memReconciler.Reconcile req now₁ now₂ m).2.store
        = m.store.filter (fun o => !decide (o.key = (⟨req.Namespace, req.Name⟩ : ObjectKey)))) ∧
    (∀ o, o ∈ ((faultyReconciler getFault deleteFault).Reconcile req now₁ now₂ m).2.store ↔
      (o ∈ m.store ∧
        (o.key ≠ ⟨req.Namespace, req.Name⟩ ∨
          ((faultyReconciler getFault deleteFault).Reconcile req now₁ now₂ m).2.store = m.store))) := by
  refine ⟨Reconcile_store r req now₁ now₂ e,
    faulty_Reconcile_store getFault deleteFault req now₁ now₂ m,
    faulty_Reconcile_store none none req now₁ now₂ m, ?_⟩
  intro o
  rcases faulty_Reconcile_store getFault deleteFault req now₁ now₂ m with h | h
  · rw [h]
    simp
  · constructor
    · intro ho
      rw [h] at ho
      have := List.mem_filter.mp ho
      exact ⟨this.1, Or.inl (by simpa using this.2)⟩
    · rintro ⟨ho, hk | hs⟩
      · rw [h]
        exact List.mem_filter.mpr ⟨ho, by simpa using hk⟩
      · rw [hs]
        exact ho

/-! ## The follow-up reconcile -/

theorem Duration_mul_Second_range (ttlSeconds : Int) :
    minDuration ≤ Duration.mul ttlSeconds Second ∧ Duration.mul ttlSeconds Second < maxDuration := by
  unfold Duration.mul wrapInt64 Second minDuration maxDuration
  constructor <;> omega

theorem IsExpired_mono (ttl finishedAt t₁ t₂ : Int) (h : t₁ ≤ t₂)
    (h₁ : IsExpired ttl finishedAt t₁ = true) : IsExpired ttl finishedAt t₂ = true := by
  unfold IsExpired Since at *
  simp only [decide_eq_true_eq, gt_iff_lt] at *
  unfold Time.Sub minDuration maxDuration at *
  split_ifs at h₁ ⊢ <;> omega

theorem delete_result_empty {σ : Type} (r : CruiseControlOperationTTLReconciler σ)
    (obj : CruiseControlOperation) (e : Env σ) : (r.delete obj e).1.1 = Result.empty := by
  rw [delete_outcome]
  cases (r.Delete e.store obj).1 with
  | none => rfl
  | some err => cases hn : IsNotFound err <;> simp [hn]

/-- C12 (counterexample): TTL 20000001 s, finished one nanosecond before the
clock reading.  The record is not expired, 20000000.999999999 s remain, and
`Reconcile` asks to be requeued after 20000002 s: the delay exceeds the true
remaining time by 1.000000001 s, more than one second. -/
theorem C12_delay_exceeds_remaining_by_more_than_a_second :
    IsExpired (Duration.mul 20000001 Second) (1000 * Second - 1) (1000 * Second) = false ∧
    (memReconciler.Reconcile sampleReq (1000 * Second) (1000 * Second)
      ⟨[sampleOp (some 20000001) (some (1000 * Second - 1))], []⟩).1.1.RequeueAfter
        = 20000002 * Second ∧
    (1000 * Second - 1) + Duration.mul 20000001 Second - 1000 * Second = 20000001 * Second - 1 ∧
    (memReconciler.Reconcile sampleReq (1000 * Second) (1000 * Second)
      ⟨[sampleOp (some 20000001) (some (1000 * Second - 1))], []⟩).1.1.RequeueAfter
        - ((1000 * Second - 1) + Duration.mul 20000001 Second - 1000 * Second) = 1000000001 ∧
    ¬ ((memReconciler.Reconcile sampleReq (1000 * Second) (1000 * Second)
      ⟨[sampleOp (some 20000001) (some (1000 * Second - 1))], []⟩).1.1.RequeueAfter
        - ((1000 * Second - 1) + Duration.mul 20000001 Second - 1000 * Second) ≤ Second) := by
  decide

/-- C12 (amended): let the record be not expired at the reading `now`, with a
true remaining time `(finishedAt + ttl) - now` below 9223372035 s, and let `d`
be the delay `Reconcile` returns.  Then the record is expired at `now + d`,
that is `(now + d) - finishedAt > ttl`; every reconcile of the unchanged
record at a time `t ≥ now + d` takes the delete branch and returns the empty
result (it does not requeue); and `d` exceeds the true remaining time by more
than zero and at most two seconds, at most one second when less than
8388607 s remain. -/
theorem C12_requeue_delay_reaches_expiry {σ : Type} (r : CruiseControlOperationTTLReconciler σ)
    (req : Request) (now : Int) (e : Env σ) (obj : CruiseControlOperation)
    (ttlSeconds finishedAt : Int)
    (hget : r.Get e.store ⟨req.Namespace, req.Name⟩ = Except.ok obj)
    (httl : obj.GetTTLSecondsAfterFinished = some ttlSeconds)
    (hfin : obj.CurrentTaskFinished = some finishedAt)
    (hnot : IsExpired (Duration.mul ttlSeconds Second) finishedAt now = false)
    (hfit : finishedAt + Duration.mul ttlSeconds Second - now < 9223372035 * Second) :
    IsExpired (Duration.mul ttlSeconds Second) finishedAt
        (now + (r.Reconcile req now now e).1.1.RequeueAfter) = true ∧
    (now + (r.Reconcile req now now e).1.1.RequeueAfter) - finishedAt
        > Duration.mul ttlSeconds Second ∧
    (∀ (t t' : Int) (e' : Env σ), now + (r.Reconcile req now now e).1.1.RequeueAfter ≤ t →
      r.Get e'.store ⟨req.Namespace, req.Name⟩ = Except.ok obj →
      IsExpired (Duration.mul ttlSeconds Second) finishedAt t = true ∧
      r.Reconcile req t t' e'
        = r.delete obj ⟨e'.store, e'.calls ++ [Call.get ⟨req.Namespace, req.Name⟩]⟩ ∧
      (r.Reconcile req t t' e').1.1 = Result.empty) ∧
    0 < (r.Reconcile req now now e).1.1.RequeueAfter
          - (finishedAt + Duration.mul ttlSeconds Second - now) ∧
    (r.Reconcile req now now e).1.1.RequeueAfter
          - (finishedAt + Duration.mul ttlSeconds Second - now) ≤ 2 * Second ∧
    (finishedAt + Duration.mul ttlSeconds Second - now < 8388607 * Second →
      (r.Reconcile req now now e).1.1.RequeueAfter
          - (finishedAt + Duration.mul ttlSeconds Second - now) ≤ Second) := by
  obtain ⟨he, hr, hlo, hhi⟩ :=
    not_expired_delay r req now e obj ttlSeconds finishedAt hget httl hfin hnot hfit
  have hn := remaining_nonneg ttlSeconds finishedAt now hnot
  have hx : remaining ttlSeconds finishedAt now < 8388607 * 1000000000 →
      reqSec (remaining ttlSeconds finishedAt now)
        = remaining ttlSeconds finishedAt now / 1000000000 + 1 :=
    fun h => reqSec_exact _ hn h
  have hrange := Duration_mul_Second_range ttlSeconds
  have hd : (r.Reconcile req now now e).1.1.RequeueAfter
      = reqSec (remaining ttlSeconds finishedAt now) * 1000000000 := by rw [hr]
  have hnum : (now + (r.Reconcile req now now e).1.1.RequeueAfter) - finishedAt
        > Duration.mul ttlSeconds Second ∧
      0 < (r.Reconcile req now now e).1.1.RequeueAfter
            - (finishedAt + Duration.mul ttlSeconds Second - now) ∧
      (r.Reconcile req now now e).1.1.RequeueAfter
            - (finishedAt + Duration.mul ttlSeconds Second - now) ≤ 2 * Second ∧
      (finishedAt + Duration.mul ttlSeconds Second - now < 8388607 * Second →
        (r.Reconcile req now now e).1.1.RequeueAfter
            - (finishedAt + Duration.mul ttlSeconds Second - now) ≤ Second) := by
    rw [hd]
    generalize reqSec (remaining ttlSeconds finishedAt now) = rs at *
    generalize Duration.mul ttlSeconds Second = ttl at *
    generalize remaining ttlSeconds finishedAt now = rem at *
    unfold Second at *
    refine ⟨by omega, by omega, by omega, ?_⟩
    intro hsmall
    have := hx (by omega)
    omega
  have hexp : IsExpired (Duration.mul ttlSeconds Second) finishedAt
      (now + (r.Reconcile req now now e).1.1.RequeueAfter) = true := by
    have hgt := hnum.1
    generalize (r.Reconcile req now now e).1.1.RequeueAfter = d at *
    unfold IsExpired Since
    simp only [decide_eq_true_eq, gt_iff_lt]
    generalize Duration.mul ttlSeconds Second = ttl at *
    unfold Time.Sub minDuration maxDuration at *
    split_ifs <;> omega
  refine ⟨hexp, hnum.1, ?_, hnum.2.1, hnum.2.2.1, hnum.2.2.2⟩
  intro t t' e' ht hget'
  have hexp' := IsExpired_mono _ _ _ _ ht hexp
  have hrec : r.Reconcile req t t' e'
      = r.delete obj ⟨e'.store, e'.calls ++ [Call.get ⟨req.Namespace, req.Name⟩]⟩ := by
    rw [Reconcile_eligible r req t t' e' obj ttlSeconds finishedAt hget' httl hfin, hexp', if_pos rfl]
  exact ⟨hexp', hrec, by rw [hrec]; exact delete_result_empty r obj _⟩

/-- Witness of C12 (amended): TTL 60 s, finished 59 s before the reading: the
delay is 2 s, and 2 s later the record is expired. -/
theorem C12_requeue_delay_reaches_expiry_witness :
    IsExpired (Duration.mul 60 Second) (941 * Second) (1000 * Second) = false ∧
    941 * Second + Duration.mul 60 Second - 1000 * Second < 9223372035 * Second ∧
    IsExpired (Duration.mul 60 Second) (941 * Second)
      (1000 * Second + (memReconciler.Reconcile sampleReq (1000 * Second) (1000 * Second)
        ⟨[sampleOp (some 60) (some (941 * Second))], []⟩).1.1.RequeueAfter) = true :=
  ⟨by decide, by decide,
   (C12_requeue_delay_reaches_expiry memReconciler sampleReq (1000 * Second)
      ⟨[sampleOp (some 60) (some (941 * Second))], []⟩ (sampleOp (some 60) (some (941 * Second)))
      60 (941 * Second) (by rfl) (by rfl) (by rfl) (by decide) (by decide)).1⟩

/-! ## Premature deletion -/

theorem expired_only_after_ttl_when_product_fits (ttlSeconds finishedAt now : Int)
    (h0 : 0 ≤ ttlSeconds) (hfit : ttlSeconds ≤ 9223372036)
    (hexp : IsExpired (Duration.mul ttlSeconds Second) finishedAt now = true) :
    Duration.mul ttlSeconds Second = ttlSeconds * 1000000000 ∧
    now - finishedAt > ttlSeconds * 1000000000 := by
  unfold IsExpired Since at hexp
  simp only [decide_eq_true_eq, gt_iff_lt] at hexp
  unfold Time.Sub Duration.mul wrapInt64 Second minDuration maxDuration at *
  constructor
  · omega
  · split_ifs at hexp <;> omega

/-- C13 (the code at the failing input): the TTL field holds 9223372037
seconds, a non-negative value; its int64 product with `time.Second` wraps to a
negative duration, so a record finished at the very instant of the clock
reading counts as expired: `Reconcile` issues the delete and the record is
gone, although zero seconds, not more than 9223372037, have elapsed. -/
theorem C13_ttl_product_overflow_deletes_at_once :
    (0 : Int) ≤ 9223372037 ∧
    Duration.mul 9223372037 Second = -9223372036709551616 ∧
    IsExpired (Duration.mul 9223372037 Second) (1000 * Second) (1000 * Second) = true ∧
    ¬ (1000 * Second - 1000 * Second > 9223372037 * Second) ∧
    deleteCalls (memReconciler.Reconcile sampleReq (1000 * Second) (1000 * Second)
      ⟨[sampleOp (some 9223372037) (some (1000 * Second))], []⟩).2.calls
        = [sampleOp (some 9223372037) (some (1000 * Second))] ∧
    (memReconciler.Reconcile sampleReq (1000 * Second) (1000 * Second)
      ⟨[sampleOp (some 9223372037) (some (1000 * Second))], []⟩).2.store = [] ∧
    (memReconciler.Reconcile sampleReq (1000 * Second) (1000 * Second)
      ⟨[sampleOp (some 9223372037) (some (1000 * Second))], []⟩).1 = Done := by
  decide

/-! ## Idempotence -/

theorem MemStore_get_after_delete (s : MemStore) (obj : CruiseControlOperation) :
    MemStore.get (MemStore.delete s obj).2 obj.key
      = Except.error (APIError.NotFound "not found") := by
  have hnone : ∀ l : MemStore, (∀ o ∈ l, ¬ o.key = obj.key) →
      MemStore.get l obj.key = Except.error (APIError.NotFound "not found") := by
    intro l hl
    unfold MemStore.get
    have : l.find? (fun o => decide (o.key = obj.key)) = none := by
      rw [List.find?_eq_none]
      intro o ho
      simpa using hl o ho
    rw [this]
  unfold MemStore.delete
  split
  · apply hnone
    intro o ho
    simpa using (List.mem_filter.mp ho).2
  · rename_i hany
    apply hnone
    intro o ho hk
    exact hany (List.any_eq_true.mpr ⟨o, ho, by simpa using hk⟩)

theorem Reconcile_delete_issued {σ : Type} (r : CruiseControlOperationTTLReconciler σ)
    (req : Request) (now₁ now₂ : Int) (e : Env σ) (obj : CruiseControlOperation)
    (h : deleteCalls (r.Reconcile req now₁ now₂ e).2.calls = deleteCalls e.calls ++ [obj]) :
    r.Get e.store ⟨req.Namespace, req.Name⟩ = Except.ok obj ∧
    (r.Reconcile req now₁ now₂ e).2.store = (r.Delete e.store obj).2 := by
  have hno : ∀ c : List Call, c = e.calls ++ [Call.get ⟨req.Namespace, req.Name⟩] →
      deleteCalls c ≠ deleteCalls e.calls ++ [obj] := by
    intro c hc hd
    rw [hc, deleteCalls_append] at hd
    have := congrArg List.length hd
    simp [deleteCalls] at this
  revert h
  cases hget : r.Get e.store ⟨req.Namespace, req.Name⟩ with
  | error ge =>
    rw [Reconcile_get_error r req now₁ now₂ e ge hget]
    intro h
    exact absurd h (hno _ rfl)
  | ok o =>
    cases httl : o.GetTTLSecondsAfterFinished with
    | none =>
      rw [Reconcile_not_eligible r req now₁ now₂ e o hget (Or.inl httl)]
      intro h
      exact absurd h (hno _ rfl)
    | some ttlSeconds =>
      cases hfin : o.CurrentTaskFinished with
      | none =>
        rw [Reconcile_not_eligible r req now₁ now₂ e o hget (Or.inr hfin)]
        intro h
        exact absurd h (hno _ rfl)
      | some finishedAt =>
        rw [Reconcile_eligible r req now₁ now₂ e o ttlSeconds finishedAt hget httl hfin]
        cases hexp : IsExpired (Duration.mul ttlSeconds Second) finishedAt now₁ with
        | false =>
          intro h
          exact absurd h (hno _ rfl)
        | true =>
          rw [if_pos rfl, delete_env]
          intro h
          simp only [deleteCalls_append, deleteCalls, List.append_assoc, List.nil_append] at h
          have ho : o = obj := by
            have := List.append_cancel_left h
            simpa using this
          subst ho
          exact ⟨rfl, rfl⟩

theorem reconcileMany_stable {σ : Type} (r : CruiseControlOperationTTLReconciler σ) (req : Request)
    (s : σ)
    (h : ∀ (now₁ now₂ : Int) (calls : List Call), r.Reconcile req now₁ now₂ ⟨s, calls⟩
      = (Done, ⟨s, calls ++ [Call.get ⟨req.Namespace, req.Name⟩]⟩))
    (clocks : List (Int × Int)) (calls : List Call) :
    (r.reconcileMany req clocks ⟨s, calls⟩).1 = List.replicate clocks.length Done ∧
    (r.reconcileMany req clocks ⟨s, calls⟩).2.store = s ∧
    deleteCalls (r.reconcileMany req clocks ⟨s, calls⟩).2.calls = deleteCalls calls := by
  induction clocks generalizing calls with
  | nil => exact ⟨rfl, rfl, rfl⟩
  | cons c cs ih =>
    obtain ⟨n1, n2⟩ := c
    unfold CruiseControlOperationTTLReconciler.reconcileMany
    rw [h n1 n2 calls]
    have ih' := ih (calls ++ [Call.get ⟨req.Namespace, req.Name⟩])
    refine ⟨?_, ih'.2.1, ?_⟩
    · show Done :: _ = _
      rw [ih'.1]
      rfl
    · show deleteCalls (r.reconcileMany req cs _).2.calls = _
      rw [ih'.2.2, deleteCalls_append]
      simp [deleteCalls]

/-- C14: over the in-memory map store, if a first `Reconcile` of a key issues
the delete of the record and returns `Done`, then any number of later
reconciles of the same key on the resulting store, at any clock readings, all
return `Done` (no error), issue no further delete and leave the store
unchanged; and for a record without TTL, any number of successive reconciles
all return `Done`, issue no delete and leave the store equal to the initial
store. -/
theorem C14_reconcile_idempotent (req : Request) (m : Env MemStore) (now₁ now₂ : Int)
    (clocks : List (Int × Int)) :
    ((∃ obj, deleteCalls (memReconciler.Reconcile req now₁ now₂ m).2.calls
          = deleteCalls m.calls ++ [obj]) →
      (memReconciler.Reconcile req now₁ now₂ m).1 = Done →
      (memReconciler.reconcileMany req clocks (memReconciler.Reconcile req now₁ now₂ m).2).1
          = List.replicate clocks.length Done ∧
      (memReconciler.reconcileMany req clocks (memReconciler.Reconcile req now₁ now₂ m).2).2.store
          = (memReconciler.Reconcile req now₁ now₂ m).2.store ∧
      deleteCalls
          (memReconciler.reconcileMany req clocks (memReconciler.Reconcile req now₁ now₂ m).2).2.calls
          = deleteCalls (memReconciler.Reconcile req now₁ now₂ m).2.calls ∧
      MemStore.get (memReconciler.Reconcile req now₁ now₂ m).2.store ⟨req.Namespace, req.Name⟩
          = Except.error (APIError.NotFound "not found")) ∧
    (∀ obj, MemStore.get m.store ⟨req.Namespace, req.Name⟩ = Except.ok obj →
      obj.GetTTLSecondsAfterFinished = none →
      (memReconciler.reconcileMany req clocks m).1 = List.replicate clocks.length Done ∧
      (memReconciler.reconcileMany req clocks m).2.store = m.store ∧
      deleteCalls (memReconciler.reconcileMany req clocks m).2.calls = deleteCalls m.calls) := by
  constructor
  · rintro ⟨obj, hdel⟩ _
    obtain ⟨hget, hstore⟩ := Reconcile_delete_issued memReconciler req now₁ now₂ m obj hdel
    have hk := (MemStore_get_ok m.store _ obj hget).1
    have hnf : MemStore.get (memReconciler.Reconcile req now₁ now₂ m).2.store
        ⟨req.Namespace, req.Name⟩ = Except.error (APIError.NotFound "not found") := by
      rw [hstore, ← hk]
      exact MemStore_get_after_delete m.store obj
    have hst := reconcileMany_stable memReconciler req
      (memReconciler.Reconcile req now₁ now₂ m).2.store
      (fun n1 n2 calls =>
        Reconcile_get_error memReconciler req n1 n2 ⟨_, calls⟩ _ hnf)
      clocks (memReconciler.Reconcile req now₁ now₂ m).2.calls
    exact ⟨hst.1, hst.2.1, hst.2.2, hnf⟩
  · intro obj hget httl
    exact reconcileMany_stable memReconciler req m.store
      (fun n1 n2 calls =>
        Reconcile_not_eligible memReconciler req n1 n2 ⟨_, calls⟩ obj hget (Or.inl httl))
      clocks m.calls

/-- Witness of C14: an expired record (TTL 60 s, finished 61 s before) is
deleted by the first reconcile and two later reconciles return `Done` on the
empty store; a record without TTL survives three reconciles. -/
theorem C14_reconcile_idempotent_witness :
    ((memReconciler.Reconcile sampleReq (1000 * Second) (1000 * Second)
        ⟨[sampleOp (some 60) (some (939 * Second))], []⟩).1 = Done ∧
      (memReconciler.reconcileMany sampleReq [(1001 * Second, 1001 * Second), (2000 * Second, 2000 * Second)]
        (memReconciler.Reconcile sampleReq (1000 * Second) (1000 * Second)
          ⟨[sampleOp (some 60) (some (939 * Second))], []⟩).2).1 = [Done, Done]) ∧
    ((memReconciler.reconcileMany sampleReq
        [(1000 * Second, 1000 * Second), (1001 * Second, 1001 * Second), (2000 * Second, 2000 * Second)]
        ⟨[sampleOp none (some (939 * Second))], []⟩).1 = [Done, Done, Done] ∧
      (memReconciler.reconcileMany sampleReq
        [(1000 * Second, 1000 * Second), (1001 * Second, 1001 * Second), (2000 * Second, 2000 * Second)]
        ⟨[sampleOp none (some (939 * Second))], []⟩).2.store = [sampleOp none (some (939 * Second))]) :=
  ⟨⟨by decide,
    ((C14_reconcile_idempotent sampleReq ⟨[sampleOp (some 60) (some (939 * Second))], []⟩
      (1000 * Second) (1000 * Second)
      [(1001 * Second, 1001 * Second), (2000 * Second, 2000 * Second)]).1
      ⟨sampleOp (some 60) (some (939 * Second)), by decide⟩ (by decide)).1⟩,
   ⟨((C14_reconcile_idempotent sampleReq ⟨[sampleOp none (some (939 * Second))], []⟩
      (1000 * Second) (1000 * Second)
      [(1000 * Second, 1000 * Second), (1001 * Second, 1001 * Second), (2000 * Second, 2000 * Second)]).2
      (sampleOp none (some (939 * Second))) (by rfl) (by rfl)).1,
    ((C14_reconcile_idempotent sampleReq ⟨[sampleOp none (some (939 * Second))], []⟩
      (1000 * Second) (1000 * Second)
      [(1000 * Second, 1000 * Second), (1001 * Second, 1001 * Second), (2000 * Second, 2000 * Second)]).2
      (sampleOp none (some (939 * Second))) (by rfl) (by rfl)).2.1⟩⟩

end Koperator
